import Mathlib

/-!
# Sim800 firmware: shallow embedding and verified properties

The definitions below are translated from the C++ sources under `main/`
(`sim.cpp`, `main.cpp`, `console.cpp`, `storage.cpp`).  Bytes are natural
numbers, C strings are lists of bytes read up to the first NUL, pointers into
a buffer are offsets, and undefined behaviour (an access outside an array) is
the value `none`.
-/

set_option maxRecDepth 100000

namespace Sim800

/-! ## Status codes (`esp_err.h`, `nvs.h` of the SDK) -/

/-- Value of `ESP_OK` in the SDK header `esp_err.h`. -/
def ESP_OK : Int := 0
/-- Value of `ESP_FAIL` in the SDK header `esp_err.h`. -/
def ESP_FAIL : Int := -1
/-- Value of `ESP_ERR_INVALID_ARG` (0x102) in the SDK header `esp_err.h`. -/
def ESP_ERR_INVALID_ARG : Int := 258
/-- Value of `ESP_ERR_NOT_FOUND` (0x105) in the SDK header `esp_err.h`. -/
def ESP_ERR_NOT_FOUND : Int := 261
/-- Value of `ESP_ERR_NVS_NOT_FOUND` (0x1102) in the SDK header `nvs.h`. -/
def ESP_ERR_NVS_NOT_FOUND : Int := 4354
/-- Value of `ESP_ERR_NVS_INVALID_LENGTH` (0x110c) in the SDK header `nvs.h`. -/
def ESP_ERR_NVS_INVALID_LENGTH : Int := 4364

/-- Width of `size_t` on the target: unsigned arithmetic is modulo `2^32`. -/
def SIZE_MOD : Nat := 4294967296

/-! ## `sim.cpp`: the line receiver -/

/-- The size of `char buffer[128]` in `recvReceiver`. -/
def BUFFER_SIZE : Nat := 128

/-- Carriage return. -/
def CR : Nat := 13
/-- Line feed. -/
def LF : Nat := 10

/-- Membership in the accept set `"\r\n"` given to `strpbrk`. -/
def isTerminator (c : Nat) : Bool := c == CR || c == LF

/-- Scan of `strpbrk(line, "\r\n")` over the bytes from `line` on; `i` is the
offset of the head of the list.  `some (some e)`: a terminator stands at offset
`e`; `some none`: the NUL was met first (the call returns `nullptr`); `none`:
the scan left the array before meeting a NUL. -/
def strpbrkFrom : List Nat → Nat → Option (Option Nat)
  | [], _ => none
  | c :: cs, i =>
    if c = 0 then some none
    else if isTerminator c then some (some i)
    else strpbrkFrom cs (i + 1)

/-- The call `strpbrk(buffer + line, "\r\n")`, with the result as an offset. -/
def strpbrk (buf : List Nat) (line : Nat) : Option (Option Nat) :=
  strpbrkFrom (buf.drop line) line

/-- The C string that starts at the head of the list: the bytes before the
first NUL, or `none` when the array ends before a NUL. -/
def cstrFrom : List Nat → Option (List Nat)
  | [] => none
  | c :: cs => if c = 0 then some [] else (cstrFrom cs).map (fun s => c :: s)

/-- The C string at `buffer + line`. -/
def cstr (buf : List Nat) (line : Nat) : Option (List Nat) :=
  cstrFrom (buf.drop line)

/-- The call `strlen(buffer + line)`. -/
def strlen (buf : List Nat) (line : Nat) : Option Nat :=
  (cstr buf line).map List.length

/-- The store `buffer[i] = v`; `none` outside the array. -/
def writeAt (buf : List Nat) (i v : Nat) : Option (List Nat) :=
  if i < buf.length then some (buf.set i v) else none

/-- The driver copying `bytes` to `buffer + off`; `none` outside the array. -/
def writeBytes (buf : List Nat) (off : Nat) (bytes : List Nat) : Option (List Nat) :=
  if off + bytes.length ≤ buf.length then
    some (buf.take off ++ bytes ++ buf.drop (off + bytes.length))
  else none

/-- The call `memmove(buffer + dst, buffer + src, n)`; `none` outside the array. -/
def memmove (buf : List Nat) (dst src n : Nat) : Option (List Nat) :=
  if src + n ≤ buf.length ∧ dst + n ≤ buf.length then
    some (buf.take dst ++ (buf.drop src).take n ++ buf.drop (dst + n))
  else none

/-- The local variables of `recvReceiver` that live across loop iterations:
`buffer`, `bufPtr` (as an offset from `buffer`, `none` for `nullptr`) and
`bufLength`. -/
structure RecvState where
  buffer : List Nat
  bufPtr : Option Nat
  bufLength : Nat
deriving DecidableEq, Repr

/-- What `uart_read_bytes` returned: a negative `recvLen`, zero (the poll timed
out), or a positive `recvLen` with the bytes the driver stored at `bufPtr`. -/
inductive ReadResult where
  | error
  | timeout
  | data (bytes : List Nat)
deriving DecidableEq, Repr

/-- What one iteration of the `do ... while (true)` loop did besides updating
its variables: whether `uart_flush_input` was called, the size asked of
`uart_read_bytes`, and the lines handed to `recvParseLine`, oldest first. -/
structure CycleOut where
  state : RecvState
  flushed : Bool
  requested : Nat
  lines : List (List Nat)
deriving DecidableEq, Repr

/-- The line handler: the text at `line` and the `length` argument. -/
abbrev LineHandler := List Nat → Int → Bool

/-- The handler of the source, `recvParseLine`: prints and returns `true`. -/
def recvParseLine : LineHandler := fun _ _ => true

/-- The loop `for (char *line = buffer; nullptr != line;)` of `recvReceiver`,
from the iteration in which `line` is at offset `line`; `fuel` bounds the number
of iterations.  Returns the variables after the loop and the lines forwarded. -/
def operateLines (parse : LineHandler) :
    Nat → List Nat → Nat → Option Nat → Nat → Option (RecvState × List (List Nat))
  | 0, _, _, _, _ => none
  | fuel + 1, buf, line, bufPtr, bufLength =>
    match strpbrk buf line with
    | none => none
    | some none =>
      match strlen buf line with
      | none => none
      | some length =>
        match memmove buf 0 line length with
        | none => none
        | some buf1 => some (⟨buf1, some length, BUFFER_SIZE - length⟩, [])
    | some (some e) =>
      match writeAt buf e 0 with
      | none => none
      | some buf1 =>
        match cstr buf1 line with
        | none => none
        | some text =>
          let call : Bool := decide (text ≠ [])
          let failed : Bool := call && !parse text ((line : Int) - ((e : Int) + 1))
          let bufPtr1 : Option Nat := if failed then none else bufPtr
          match operateLines parse fuel buf1 (e + 1) bufPtr1 bufLength with
          | none => none
          | some (st, ls) => some (st, if call then text :: ls else ls)

/-- One iteration of the `do ... while (true)` loop of `recvReceiver`, given
what `uart_read_bytes` returns in it.  A read that stored no byte has
`recvLen = 0` and takes the `continue` of a timeout. -/
def recvCycle (parse : LineHandler) (st : RecvState) (r : ReadResult) : Option CycleOut :=
  let flushed : Bool := st.bufPtr.isNone
  let ptr : Nat := st.bufPtr.getD 0
  let len : Nat := if flushed then BUFFER_SIZE else st.bufLength
  let requested : Nat := (len + (SIZE_MOD - 1)) % SIZE_MOD
  match r with
  | .error => some ⟨⟨st.buffer, none, len⟩, flushed, requested, []⟩
  | .timeout => some ⟨⟨st.buffer, some ptr, len⟩, flushed, requested, []⟩
  | .data bytes =>
    match writeBytes st.buffer ptr bytes with
    | none => none
    | some buf1 =>
      if bytes.length = 0 then some ⟨⟨buf1, some ptr, len⟩, flushed, requested, []⟩
      else
        match writeAt buf1 (ptr + bytes.length) 0 with
        | none => none
        | some buf2 =>
          match operateLines parse (BUFFER_SIZE + 1) buf2 0 (some ptr) len with
          | none => none
          | some (st1, ls) => some ⟨st1, flushed, requested, ls⟩

/-- The variables of `recvReceiver` on entry to its loop: `bufPtr = nullptr`,
`bufLength = 0`, and `buffer` with whatever content `junk` the stack holds. -/
def recvStart (junk : List Nat) : RecvState := ⟨junk, none, 0⟩

/-- Successive iterations of the receiver loop, one per read result; returns the
last state and all lines forwarded, in order. -/
def recvRun (parse : LineHandler) : RecvState → List ReadResult →
    Option (RecvState × List (List Nat))
  | st, [] => some (st, [])
  | st, r :: rs =>
    match recvCycle parse st r with
    | none => none
    | some out =>
      match recvRun parse out.state rs with
      | none => none
      | some (st1, ls) => some (st1, out.lines ++ ls)

/-- The size `bufLength - 1` the next iteration asks of `uart_read_bytes`. -/
def nextRequest (st : RecvState) : Nat :=
  ((if st.bufPtr.isNone then BUFFER_SIZE else st.bufLength) + (SIZE_MOD - 1)) % SIZE_MOD

/-- Every read of the list is a successful one (`0 < recvLen`) that returns no
more bytes than the iteration asked for.  Nothing is asked of the reads that
would follow an iteration with undefined behaviour. -/
def readsFit (parse : LineHandler) : RecvState → List (List Nat) → Bool
  | _, [] => true
  | st, r :: rs =>
    decide (0 < r.length) && decide (r.length ≤ nextRequest st) &&
      (match recvCycle parse st (.data r) with
       | none => true
       | some out => readsFit parse out.state rs)

/-- Splitting a stream on CR or LF, as the specification words it: the segments
that a terminator closes, without the empty ones. -/
def specLines (stream : List Nat) : List (List Nat) :=
  ((stream.splitOnP (fun c => isTerminator c)).dropLast).filter (fun l => decide (l ≠ []))

/-- The unterminated tail of a stream: what follows its last CR or LF. -/
def specCarry (stream : List Nat) : List Nat :=
  ((stream.splitOnP (fun c => isTerminator c)).getLast?).getD []


/-- The receiver variables hold `carry` as the unterminated data before the
write cursor: either the cursor is `nullptr` (nothing is held), or the cursor
is `carry.length` bytes into the buffer, the remaining capacity is the rest of
the buffer, and the bytes before the cursor are `carry`. -/
def Carries (st : RecvState) (carry : List Nat) : Prop :=
  st.buffer.length = BUFFER_SIZE ∧ carry.length + 1 ≤ BUFFER_SIZE ∧
    ((st.bufPtr = none ∧ carry = []) ∨
      (st.bufPtr = some carry.length ∧ st.bufLength = BUFFER_SIZE - carry.length ∧
        st.buffer.take carry.length = carry))

/-! ## `main.cpp`: the pin commands -/

/-- The C string a `char *` argument points to: the characters before the
first NUL. -/
def cstrOf (s : String) : List Char := s.toList.takeWhile (fun c => c != Char.ofNat 0)

/-- The exceptions `std::stoi` throws. -/
inductive StoiError where
  | invalid_argument
  | out_of_range
deriving DecidableEq, Repr

/-- The `isspace` test of the C locale, used by `strtol` to skip leading blanks. -/
def isSpace (c : Char) : Bool := c.toNat == 32 || (9 ≤ c.toNat && c.toNat ≤ 13)

/-- A decimal digit. -/
def isDigit (c : Char) : Bool := 48 ≤ c.toNat && c.toNat ≤ 57

/-- The value of a run of decimal digits. -/
def digitsValue (ds : List Char) : Nat := ds.foldl (fun a d => 10 * a + (d.toNat - 48)) 0

/-- The call `std::stoi(str, &pos)` (base 10): blanks are skipped, an optional
sign is read, then the longest run of digits.  Without a digit it throws
`std::invalid_argument`; a value outside `int` throws `std::out_of_range`;
otherwise it returns the value and stores the number of characters used. -/
def stoi (str : String) : Except StoiError (Int × Nat) :=
  let cs := cstrOf str
  let blanks := cs.takeWhile isSpace
  let rest := cs.dropWhile isSpace
  let negative : Bool := rest.head? == some (Char.ofNat 45)
  let signed : Bool := negative || rest.head? == some (Char.ofNat 43)
  let body := if signed then rest.drop 1 else rest
  let digits := body.takeWhile isDigit
  if digits = [] then Except.error StoiError.invalid_argument
  else
    let v : Int := if negative then -(digitsValue digits : Int) else (digitsValue digits : Int)
    if v < -2147483648 ∨ 2147483647 < v then Except.error StoiError.out_of_range
    else Except.ok (v, blanks.length + (if signed then 1 else 0) + digits.length)

/-- The `mode` field of the `gpio_config_t` a handler builds. -/
inductive GpioMode where
  | GPIO_MODE_DISABLE
  | GPIO_MODE_INPUT
  | GPIO_MODE_OUTPUT
deriving DecidableEq, Repr

/-- The calls a pin handler makes to the GPIO driver, and what it prints. -/
inductive PinCall where
  | gpio_config (pin_bit_mask : Nat) (mode : GpioMode)
  | gpio_set_level (pin : Int) (level : Nat)
  | gpio_get_level (pin : Int)
  | printf (text : String)
deriving DecidableEq, Repr

/-- How a handler call ends: it returns a status, an exception leaves it, or its
behaviour is undefined (a shift by a count outside 0..63 in `BIT64`). -/
inductive Outcome where
  | returned (code : Int)
  | threw (e : StoiError)
  | undefined
deriving DecidableEq, Repr

/-- The SDK macro `BIT64(pin)`, `1ULL << pin`: defined for counts 0..63. -/
def BIT64 (pin : Int) : Option Nat :=
  if 0 ≤ pin ∧ pin < 64 then some (2 ^ pin.toNat) else none

/-- The handler `pinDisable(argc, argv)` of the command `pinoff`; `argv` holds
the `argc` arguments, `gpio_config` is the answer of the driver. -/
def pinDisable (gpio_config : Nat → GpioMode → Int) (argv : List String) :
    Outcome × List PinCall :=
  if argv.length ≠ 2 then (Outcome.returned ESP_ERR_INVALID_ARG, [])
  else
    match stoi (argv.getD 1 "") with
    | Except.error e => (Outcome.threw e, [])
    | Except.ok (pin, pos) =>
      if pos ≠ (cstrOf (argv.getD 1 "")).length then (Outcome.returned ESP_ERR_INVALID_ARG, [])
      else
        match BIT64 pin with
        | none => (Outcome.undefined, [])
        | some mask =>
          (Outcome.returned (gpio_config mask GpioMode.GPIO_MODE_DISABLE),
            [PinCall.gpio_config mask GpioMode.GPIO_MODE_DISABLE])

/-- The handler `pinInput(argc, argv)` of the command `pinin`; `gpio_get_level`
is the level the driver reports. -/
def pinInput (gpio_config : Nat → GpioMode → Int) (gpio_get_level : Int → Int)
    (argv : List String) : Outcome × List PinCall :=
  if argv.length ≠ 2 then (Outcome.returned ESP_ERR_INVALID_ARG, [])
  else
    match stoi (argv.getD 1 "") with
    | Except.error e => (Outcome.threw e, [])
    | Except.ok (pin, pos) =>
      if pos ≠ (cstrOf (argv.getD 1 "")).length then (Outcome.returned ESP_ERR_INVALID_ARG, [])
      else
        match BIT64 pin with
        | none => (Outcome.undefined, [])
        | some mask =>
          let conf := gpio_config mask GpioMode.GPIO_MODE_INPUT
          if conf ≠ ESP_OK then
            (Outcome.returned conf, [PinCall.gpio_config mask GpioMode.GPIO_MODE_INPUT])
          else
            let isEnabled := gpio_get_level pin
            (Outcome.returned ESP_OK,
              [PinCall.gpio_config mask GpioMode.GPIO_MODE_INPUT, PinCall.gpio_get_level pin,
                PinCall.printf ("GPIO #" ++ toString (pin.toNat % 4294967296) ++ " = " ++
                  (if isEnabled ≠ 0 then "1-HIGH" else "0-low"))])

/-- The handler `pinOutput(argc, argv)` of the command `pinout`.  The second
length test compares the characters used in `argv[2]` with `strlen(argv[1])`,
as the source does. -/
def pinOutput (gpio_config : Nat → GpioMode → Int) (argv : List String) :
    Outcome × List PinCall :=
  if argv.length ≠ 3 then (Outcome.returned ESP_ERR_INVALID_ARG, [])
  else
    match stoi (argv.getD 1 "") with
    | Except.error e => (Outcome.threw e, [])
    | Except.ok (pin, pos) =>
      if pos ≠ (cstrOf (argv.getD 1 "")).length then (Outcome.returned ESP_ERR_INVALID_ARG, [])
      else
        match stoi (argv.getD 2 "") with
        | Except.error e => (Outcome.threw e, [])
        | Except.ok (enable, pos2) =>
          if pos2 ≠ (cstrOf (argv.getD 1 "")).length then
            (Outcome.returned ESP_ERR_INVALID_ARG, [])
          else
            match BIT64 pin with
            | none => (Outcome.undefined, [])
            | some mask =>
              let conf := gpio_config mask GpioMode.GPIO_MODE_OUTPUT
              if conf ≠ ESP_OK then
                (Outcome.returned conf, [PinCall.gpio_config mask GpioMode.GPIO_MODE_OUTPUT])
              else
                (Outcome.returned ESP_OK,
                  [PinCall.gpio_config mask GpioMode.GPIO_MODE_OUTPUT,
                    PinCall.gpio_set_level pin (if enable ≠ 0 then 1 else 0)])

/-! ## `console.cpp`: the interactive loop -/

/-- What one pass of the `while (true)` loop of `consoleLoop` did: whether the
line went to `esp_console_run`, the texts it printed, and whether the pass
reached the end of the loop body, so that the loop goes on. -/
structure LoopPass where
  dispatched : Bool
  printed : List String
  completed : Bool
deriving DecidableEq, Repr

/-- One pass of the `while (true)` loop of `consoleLoop` for the line that
`linenoise` returned (`none` for `nullptr`).  The SDK dispatcher
`esp_console_run` is a parameter.  For a line it gives `none` when the call
does not return: the handler it runs never returns (the `reboot` handler calls
`esp_restart`), or an exception leaves the handler (as `std::stoi` does in the
pin handlers) and ends the program at the `noexcept` loop.  Otherwise it gives
its status and the value it stored in `ret` (`none` when it left `ret` alone,
which then keeps its initial 0).  `CONSOLE_OK`, `CONSOLE_ERROR` and
`esp_err_to_name` are the configured indicator texts and the SDK table of
status names. -/
def consoleLoopPass (CONSOLE_OK CONSOLE_ERROR : String) (esp_err_to_name : Int → String)
    (esp_console_run : String → Option (Int × Option Int)) (line : Option String) : LoopPass :=
  match line with
  | none => ⟨false, [], true⟩
  | some l =>
    if cstrOf l = [] then ⟨false, [], true⟩
    else
      match esp_console_run l with
      | none => ⟨true, [], false⟩
      | some r =>
        let err := r.1
        let ret : Int := r.2.getD 0
        if err = ESP_ERR_NOT_FOUND then ⟨true, ["Unrecognized command\n"], true⟩
        else if err = ESP_ERR_INVALID_ARG then ⟨true, ["Empty command\n"], true⟩
        else if err = ESP_OK then
          if ret ≠ 0 then
            ⟨true, [CONSOLE_ERROR ++ " " ++ esp_err_to_name ret ++ "(" ++ toString ret ++ ")\n"],
              true⟩
          else ⟨true, [CONSOLE_OK ++ "\n"], true⟩
        else ⟨true, ["Internal error: " ++ esp_err_to_name err ++ "\n"], true⟩

/-! ## `storage.cpp`: the reference-counted subsystem -/

/-- The class `Subsystem`: its atomic counter `count_` (a `size_t`). -/
structure Subsystem where
  count_ : Nat
deriving DecidableEq, Repr

/-- How a call of `Subsystem::dec` ends: it returns a value, or a failed
`assert` aborts the program. -/
inductive DecResult where
  | returned (value : Bool)
  | aborted
deriving DecidableEq, Repr

/-- The method `Subsystem::inc`, taken at the step where its
compare-and-exchange succeeds (or where it reads 0 and gives up). -/
def Subsystem.inc (s : Subsystem) : Bool × Subsystem :=
  if s.count_ = 0 then (false, s)
  else (true, ⟨(s.count_ + 1) % SIZE_MOD⟩)

/-- The method `Subsystem::dec`, taken at the step where its
compare-and-exchange succeeds (or where it reads 0 or 1).  `asserts` tells
whether `assert` is compiled in (`NDEBUG` not defined): then `assert(false)`
aborts, otherwise the statement after it, `return true`, runs. -/
def Subsystem.dec (asserts : Bool) (s : Subsystem) : DecResult × Subsystem :=
  if s.count_ = 0 then (DecResult.returned false, s)
  else if s.count_ = 1 then
    (if asserts then DecResult.aborted else DecResult.returned true, s)
  else (DecResult.returned true, ⟨s.count_ - 1⟩)

/-- A line written to the error log: the tag and the text given to `ESP_LOGE`. -/
inductive LogLine where
  | ESP_LOGE (tag text : String)
deriving DecidableEq, Repr

/-- The constant `Subsystem::MODULE`, the log tag of the class. -/
def Subsystem.MODULE : String := "NVS"

/-- The method `Subsystem::dec` together with the lines it writes to the error
log: in the branch `1 == count` the call of `ESP_LOGE` comes first, then
`assert(false)`, then `return true`.  `Subsystem.dec` is this method without
the log. -/
def Subsystem.decLogged (asserts : Bool) (s : Subsystem) :
    DecResult × Subsystem × List LogLine :=
  if s.count_ = 0 then (DecResult.returned false, s, [])
  else if s.count_ = 1 then
    (if asserts then DecResult.aborted else DecResult.returned true, s,
      [LogLine.ESP_LOGE Subsystem.MODULE "NVS-flash -- overrefs refs"])
  else (DecResult.returned true, ⟨s.count_ - 1⟩, [])

/-- A call on the subsystem: `inc` (acquire) or `dec` (release). -/
inductive RefOp where
  | acquire
  | release
deriving DecidableEq, Repr

/-- One call in a linearised sequence: the new subsystem, and whether the call
returned `true`. -/
def Subsystem.step (asserts : Bool) (s : Subsystem) : RefOp → Subsystem × Bool
  | RefOp.acquire => ((s.inc).2, (s.inc).1)
  | RefOp.release => ((s.dec asserts).2, decide ((s.dec asserts).1 = DecResult.returned true))

/-- A linearised sequence of calls: the subsystem after it, and whether every
call returned `true`. -/
def Subsystem.run (asserts : Bool) : Subsystem → List RefOp → Subsystem × Bool
  | s, [] => (s, true)
  | s, op :: ops =>
    let r := s.step asserts op
    let rest := Subsystem.run asserts r.1 ops
    (rest.1, r.2 && rest.2)

/-- Acquires minus releases in a sequence of calls: the holders it leaves. -/
def holders : List RefOp → Int
  | [] => 0
  | RefOp.acquire :: ops => holders ops + 1
  | RefOp.release :: ops => holders ops - 1

/-! ## `storage.cpp`: the typed store -/

/-- The calls a `Storage` accessor makes to the persistent engine. -/
inductive NvsCall where
  | nvs_get_i32 (handle : Nat) (key : String)
  | nvs_get_u32 (handle : Nat) (key : String)
  | nvs_get_str (handle : Nat) (key : String) (length : Nat)
  | nvs_set_i32 (handle : Nat) (key : String) (value : Int)
  | nvs_set_u32 (handle : Nat) (key : String) (value : Nat)
  | nvs_set_str (handle : Nat) (key : String) (value : List Nat)
deriving DecidableEq, Repr

/-- The persistent engine of the SDK (`nvs_flash.h`), a parameter of the store:
`σ` is its content.  A getter gives the status and what it stored through the
out pointer; `nvs_get_str` takes the buffer and `*length` and gives the status,
the buffer and `*length` afterwards; a setter gives the status and the new
content. -/
structure NvsEngine (σ : Type) where
  nvs_get_i32 : σ → Nat → String → Int × Int
  nvs_get_u32 : σ → Nat → String → Int × Nat
  nvs_get_str : σ → Nat → String → List Nat → Nat → Int × List Nat × Nat
  nvs_set_i32 : σ → Nat → String → Int → Int × σ
  nvs_set_u32 : σ → Nat → String → Nat → Int × σ
  nvs_set_str : σ → Nat → String → List Nat → Int × σ

/-- The members of the class `Storage`. -/
structure Storage where
  isValid_ : Bool
  handle_ : Nat
deriving DecidableEq, Repr

/-- The four bytes of a 32-bit object, least significant first. -/
def bytesOfU32 (v : Nat) : List Nat :=
  [v % 256, v / 256 % 256, v / 65536 % 256, v / 16777216 % 256]

/-- The 32-bit object made of four bytes, least significant first. -/
def u32OfBytes : List Nat → Nat
  | [a, b, c, d] => a + 256 * b + 65536 * c + 16777216 * d
  | _ => 0

/-- The call `memcpy(&dst, &src, 4)` between a `float` and a `uint32_t`, both
taken as 32-bit patterns: the four bytes of the source become the target. -/
def memcpy32 (src : Nat) : Nat := u32OfBytes (bytesOfU32 src)

/-- The template `::get(handle, name, def, fn)`. -/
def getWith {T : Type} (fn : Nat → String → Int × T) (handle : Nat) (name : String)
    (dflt : T) : T :=
  let r := fn handle name
  if r.1 = ESP_OK then r.2 else dflt

/-- The template `::set(handle, name, value, fn)`. -/
def setWith {σ T : Type} (fn : Nat → String → T → Int × σ) (handle : Nat) (name : String)
    (value : T) : Bool × σ :=
  let r := fn handle name value
  (decide (r.1 = ESP_OK), r.2)

/-- The method `int Storage::get(const char *name, int def)`: the value and the
engine calls made. -/
def Storage.getInt {σ : Type} (E : NvsEngine σ) (s : σ) (st : Storage) (name : String)
    (dflt : Int) : Int × List NvsCall :=
  if !st.isValid_ then (dflt, [])
  else (getWith (E.nvs_get_i32 s) st.handle_ name dflt, [NvsCall.nvs_get_i32 st.handle_ name])

/-- The method `unsigned Storage::get(const char *name, unsigned def)`. -/
def Storage.getUnsigned {σ : Type} (E : NvsEngine σ) (s : σ) (st : Storage) (name : String)
    (dflt : Nat) : Nat × List NvsCall :=
  if !st.isValid_ then (dflt, [])
  else (getWith (E.nvs_get_u32 s) st.handle_ name dflt, [NvsCall.nvs_get_u32 st.handle_ name])

/-- The method `float Storage::get(const char *name, float def)`; a `float` is
its 32-bit pattern. -/
def Storage.getFloat {σ : Type} (E : NvsEngine σ) (s : σ) (st : Storage) (name : String)
    (dflt : Nat) : Nat × List NvsCall :=
  if !st.isValid_ then (dflt, [])
  else
    let fname := name ++ "-float"
    let r := E.nvs_get_u32 s st.handle_ fname
    (if r.1 = ESP_OK then memcpy32 r.2 else dflt, [NvsCall.nvs_get_u32 st.handle_ fname])

/-- The call `value.resize(n)` on a `std::string`: cut to `n` characters or
filled up with NUL characters. -/
def resize (value : List Nat) (n : Nat) : List Nat :=
  value.take n ++ List.replicate (n - value.length) 0

/-- The loop `for (bool isCompleted = false; !isCompleted;)` of the string
getter; `fuel` bounds the number of passes, `calls` are the engine calls made
before. -/
def Storage.getStringLoop {σ : Type} (E : NvsEngine σ) (s : σ) (st : Storage) (name : String)
    (dflt : List Nat) : Nat → List Nat → List NvsCall → Option (List Nat × List NvsCall)
  | 0, _, _ => none
  | fuel + 1, value, calls =>
    let length := value.length
    let r := E.nvs_get_str s st.handle_ name value length
    let calls1 := calls ++ [NvsCall.nvs_get_str st.handle_ name length]
    if r.1 = ESP_OK then
      some (resize r.2.1 ((r.2.2 + (SIZE_MOD - 1)) % SIZE_MOD), calls1)
    else if r.1 = ESP_ERR_NVS_INVALID_LENGTH then
      Storage.getStringLoop E s st name dflt fuel (resize r.2.1 r.2.2) calls1
    else some (dflt, calls1)

/-- The constant `defaultLength` of the string getter. -/
def defaultLength : Nat := 64

/-- The method `std::string Storage::get(const char *name, std::string_view def)`:
the string and the engine calls made, or `none` when the loop has not ended
within `fuel` passes. -/
def Storage.getString {σ : Type} (E : NvsEngine σ) (fuel : Nat) (s : σ) (st : Storage)
    (name : String) (dflt : List Nat) : Option (List Nat × List NvsCall) :=
  if !st.isValid_ then some (dflt, [])
  else Storage.getStringLoop E s st name dflt fuel (List.replicate defaultLength 63) []

/-- The method `bool Storage::set(const char *name, int value)`: the result, the
engine content afterwards and the engine calls made. -/
def Storage.setInt {σ : Type} (E : NvsEngine σ) (s : σ) (st : Storage) (name : String)
    (value : Int) : Bool × σ × List NvsCall :=
  if !st.isValid_ then (false, s, [])
  else
    let r := setWith (E.nvs_set_i32 s) st.handle_ name value
    (r.1, r.2, [NvsCall.nvs_set_i32 st.handle_ name value])

/-- The method `bool Storage::set(const char *name, unsigned value)`. -/
def Storage.setUnsigned {σ : Type} (E : NvsEngine σ) (s : σ) (st : Storage) (name : String)
    (value : Nat) : Bool × σ × List NvsCall :=
  if !st.isValid_ then (false, s, [])
  else
    let r := setWith (E.nvs_set_u32 s) st.handle_ name value
    (r.1, r.2, [NvsCall.nvs_set_u32 st.handle_ name value])

/-- The method `bool Storage::set(const char *name, float value)`; a `float` is
its 32-bit pattern. -/
def Storage.setFloat {σ : Type} (E : NvsEngine σ) (s : σ) (st : Storage) (name : String)
    (value : Nat) : Bool × σ × List NvsCall :=
  if !st.isValid_ then (false, s, [])
  else
    let fname := name ++ "-float"
    let v := memcpy32 value
    let r := setWith (E.nvs_set_u32 s) st.handle_ fname v
    (r.1, r.2, [NvsCall.nvs_set_u32 st.handle_ fname v])

/-- The method `bool Storage::set(const char *name, const char *value)`; `value`
is the C string, the bytes before its terminator. -/
def Storage.setString {σ : Type} (E : NvsEngine σ) (s : σ) (st : Storage) (name : String)
    (value : List Nat) : Bool × σ × List NvsCall :=
  if !st.isValid_ then (false, s, [])
  else
    let r := setWith (E.nvs_set_str s) st.handle_ name value
    (r.1, r.2, [NvsCall.nvs_set_str st.handle_ name value])

/-- An entry of the sample engine: the type it was written with and its value. -/
inductive SampleEntry where
  | i32 (v : Int)
  | u32 (v : Nat)
  | str (v : List Nat)
deriving DecidableEq, Repr

/-- Lookup of a key in the content of the sample engine. -/
def sampleFind (s : List (String × SampleEntry)) (key : String) : Option SampleEntry :=
  (s.find? (fun e => e.1 == key)).map Prod.snd

/-- A sample engine, used to instantiate the engine parameter: the content is a
list of keyed entries, newest first.  Keys longer than 15 characters are
refused; a read finds the newest entry of the key; `nvs_get_str` answers a
buffer shorter than the string and its terminator with
`ESP_ERR_NVS_INVALID_LENGTH` and the size needed. -/
def sampleEngine : NvsEngine (List (String × SampleEntry)) where
  nvs_get_i32 := fun s _ key =>
    match sampleFind s key with
    | some (SampleEntry.i32 v) => (ESP_OK, v)
    | _ => (ESP_ERR_NVS_NOT_FOUND, 0)
  nvs_get_u32 := fun s _ key =>
    match sampleFind s key with
    | some (SampleEntry.u32 v) => (ESP_OK, v)
    | _ => (ESP_ERR_NVS_NOT_FOUND, 0)
  nvs_get_str := fun s _ key buf length =>
    match sampleFind s key with
    | some (SampleEntry.str v) =>
      if length < v.length + 1 then (ESP_ERR_NVS_INVALID_LENGTH, buf, v.length + 1)
      else (ESP_OK, v ++ 0 :: buf.drop (v.length + 1), v.length + 1)
    | _ => (ESP_ERR_NVS_NOT_FOUND, buf, length)
  nvs_set_i32 := fun s _ key v =>
    if 15 < key.length then (ESP_FAIL, s) else (ESP_OK, (key, SampleEntry.i32 v) :: s)
  nvs_set_u32 := fun s _ key v =>
    if 15 < key.length then (ESP_FAIL, s) else (ESP_OK, (key, SampleEntry.u32 v) :: s)
  nvs_set_str := fun s _ key v =>
    if 15 < key.length then (ESP_FAIL, s) else (ESP_OK, (key, SampleEntry.str v) :: s)

/-! ## `sim.cpp`: the receiver at its read call -/

/-- The offset `bufPtr - buffer` at the call of `uart_read_bytes`, after the
reset that an iteration starting with `bufPtr == nullptr` performs. -/
def readPtr (st : RecvState) : Nat := st.bufPtr.getD 0

/-- The value of `bufLength` at the call of `uart_read_bytes`, after the reset
that an iteration starting with `bufPtr == nullptr` performs. -/
def readLength (st : RecvState) : Nat :=
  if st.bufPtr.isNone then BUFFER_SIZE else st.bufLength

/-- Every successful read of the list returns no more bytes than its iteration
asked for; error and timeout results are free.  Nothing is asked of the reads
that would follow an iteration with undefined behaviour. -/
def resultsFit (parse : LineHandler) : RecvState → List ReadResult → Bool
  | _, [] => true
  | st, r :: rs =>
    (match r with
      | ReadResult.data d => decide (d.length ≤ nextRequest st)
      | _ => true) &&
      (match recvCycle parse st r with
       | none => true
       | some out => resultsFit parse out.state rs)

/-- The states of the receiver loop at the start of an iteration: those that
some list of read results, each fitting its request, leads to from the entry
of the loop. -/
def Reachable (parse : LineHandler) (junk : List Nat) (st : RecvState) : Prop :=
  ∃ rs ls, resultsFit parse (recvStart junk) rs = true ∧
    recvRun parse (recvStart junk) rs = some (st, ls)

/-! ## `sim.cpp`: the AT command and the start-up sequence -/

/-- The calls made to the serial driver when sending. -/
inductive UartCall where
  | uart_write_bytes (text : List Char) (size : Nat)
  | uart_wait_tx_done (wait : Nat)
deriving DecidableEq, Repr

/-- The function `simSend(message, length, wait)`.  The driver answers are
parameters: `uart_write_bytes` gives the `int` it returns for a text and a
size, compared with the `size_t` length after conversion to unsigned. -/
def simSend (uart_write_bytes : List Char → Nat → Int) (uart_wait_tx_done : Nat → Int)
    (message : List Char) (length : Nat) (wait : Nat) : Int × List UartCall :=
  if Int.toNat (uart_write_bytes message length % (SIZE_MOD : Int)) ≠ length then
    (ESP_FAIL, [UartCall.uart_write_bytes message length])
  else if wait = 0 then (ESP_OK, [UartCall.uart_write_bytes message length])
  else (uart_wait_tx_done wait,
    [UartCall.uart_write_bytes message length, UartCall.uart_wait_tx_done wait])

/-- The loop `for (int i = 1; i < argc; ++i)` of `sendCommand`, from the
iteration with index `i` over the arguments still to come. -/
def sendCommandLoop : List String → Nat → List Char → List Char
  | [], _, command => command
  | a :: rest, i, command =>
    sendCommandLoop rest (i + 1) ((if i ≠ 1 then command ++ [','] else command) ++ cstrOf a)

/-- The handler `sendCommand(argc, argv)` of the command `AT`. -/
def sendCommand (uart_write_bytes : List Char → Nat → Int) (uart_wait_tx_done : Nat → Int)
    (argv : List String) : Int × List UartCall :=
  let command := sendCommandLoop (argv.drop 1) 1 ['A', 'T'] ++ ['\r', '\n']
  simSend uart_write_bytes uart_wait_tx_done command command.length 0

/-- The constant `resetDelayEnableMs`. -/
def resetDelayEnableMs : Nat := 500
/-- The constant `powerKeyDelayEnableMs`. -/
def powerKeyDelayEnableMs : Nat := 1250
/-- The constant `powerKeyDelayDisableMs`. -/
def powerKeyDelayDisableMs : Nat := 2000

/-- The three control lines of the modem; the pin numbers behind them are
configuration constants. -/
inductive ControlLine where
  | power
  | reset
  | powerKey
deriving DecidableEq, Repr

/-- The steps of `simInit`: the driver calls in the order made.  A delay is
recorded with the milliseconds given to `pdMS_TO_TICKS`. -/
inductive InitStep where
  | gpio_config
  | gpio_set_level (line : ControlLine) (level : Nat)
  | vTaskDelay (ms : Nat)
  | uart_driver_install
  | uart_param_config
  | uart_set_pin
  | xTaskCreate
  | consoleAdd
deriving DecidableEq, Repr

/-- What the driver calls of `simInit` answer. -/
structure InitAnswers where
  gpio_config : Int
  uart_driver_install : Int
  uart_param_config : Int
  uart_set_pin : Int
  xTaskCreate : Bool
  consoleAdd : Int
deriving DecidableEq, Repr

/-- How `simInit` ends: it returns a status, or `ESP_ERROR_CHECK` aborts. -/
inductive InitResult where
  | returned (code : Int)
  | aborted
deriving DecidableEq, Repr

/-- The level writes and delays of `simInit` between the pin configuration and
the serial driver installation, in source order. -/
def chipInitSteps : List InitStep :=
  [InitStep.gpio_set_level ControlLine.power 1,
   InitStep.gpio_set_level ControlLine.reset 0,
   InitStep.gpio_set_level ControlLine.powerKey 1,
   InitStep.vTaskDelay resetDelayEnableMs,
   InitStep.gpio_set_level ControlLine.reset 1,
   InitStep.gpio_set_level ControlLine.powerKey 0,
   InitStep.vTaskDelay powerKeyDelayEnableMs,
   InitStep.gpio_set_level ControlLine.powerKey 1,
   InitStep.vTaskDelay powerKeyDelayDisableMs]

/-- The function `simInit()`: its result and the steps it made. -/
def simInit (env : InitAnswers) : InitResult × List InitStep :=
  if env.gpio_config ≠ ESP_OK then (InitResult.aborted, [InitStep.gpio_config])
  else
    let pre := InitStep.gpio_config :: chipInitSteps
    if env.uart_driver_install ≠ ESP_OK then
      (InitResult.aborted, pre ++ [InitStep.uart_driver_install])
    else if env.uart_param_config ≠ ESP_OK then
      (InitResult.aborted, pre ++ [InitStep.uart_driver_install, InitStep.uart_param_config])
    else if env.uart_set_pin ≠ ESP_OK then
      (InitResult.aborted, pre ++ [InitStep.uart_driver_install, InitStep.uart_param_config,
        InitStep.uart_set_pin])
    else if !env.xTaskCreate then
      (InitResult.returned ESP_FAIL, pre ++ [InitStep.uart_driver_install,
        InitStep.uart_param_config, InitStep.uart_set_pin, InitStep.vTaskDelay 1000,
        InitStep.xTaskCreate])
    else if env.consoleAdd ≠ ESP_OK then
      (InitResult.aborted, pre ++ [InitStep.uart_driver_install, InitStep.uart_param_config,
        InitStep.uart_set_pin, InitStep.vTaskDelay 1000, InitStep.xTaskCreate,
        InitStep.consoleAdd])
    else
      (InitResult.returned ESP_OK, pre ++ [InitStep.uart_driver_install,
        InitStep.uart_param_config, InitStep.uart_set_pin, InitStep.vTaskDelay 1000,
        InitStep.xTaskCreate, InitStep.consoleAdd])

/-- The steps made before the serial driver is installed. -/
def beforeUart (steps : List InitStep) : List InitStep :=
  steps.takeWhile (fun t => decide (t ≠ InitStep.uart_driver_install))

/-- A level write or a delay. -/
def isWriteOrWait : InitStep → Bool
  | InitStep.gpio_set_level _ _ => true
  | InitStep.vTaskDelay _ => true
  | _ => false

/-! ## `storage.cpp`: construction of the subsystem and of the store -/

/-- Value of `ESP_ERR_NVS_NO_FREE_PAGES` (0x110d) in the SDK header `nvs.h`. -/
def ESP_ERR_NVS_NO_FREE_PAGES : Int := 4365

/-- The calls the subsystem makes to the flash layer of the engine. -/
inductive FlashCall where
  | nvs_flash_init
  | nvs_flash_erase
deriving DecidableEq, Repr

/-- The constructor `Subsystem::Subsystem()`, run once by `getInstance`; `init`
and `erase` are what `nvs_flash_init()` and `nvs_flash_erase()` answer.
Returns the subsystem and the engine calls made. -/
def Subsystem.construct (init erase : Int) : Subsystem × List FlashCall :=
  if init = ESP_OK then (⟨1⟩, [FlashCall.nvs_flash_init])
  else if init = ESP_ERR_NVS_NO_FREE_PAGES then
    if erase ≠ ESP_OK then (⟨0⟩, [FlashCall.nvs_flash_init, FlashCall.nvs_flash_erase])
    else (⟨1⟩, [FlashCall.nvs_flash_init, FlashCall.nvs_flash_erase])
  else (⟨0⟩, [FlashCall.nvs_flash_init])

/-- What a constructor or destructor of `Storage` leaves: the members, the
subsystem, and whether a failed `assert` in `Subsystem::dec` aborted. -/
structure StorageStep where
  storage : Storage
  subsystem : Subsystem
  aborted : Bool
deriving DecidableEq, Repr

/-- The constructor `Storage::Storage()`; `nvs_open` is the status and the
handle the engine answers. -/
def Storage.construct (asserts : Bool) (sub : Subsystem) (nvs_open : Int × Nat) : StorageStep :=
  let r := sub.inc
  if !r.1 then ⟨⟨false, 0⟩, r.2, false⟩
  else if nvs_open.1 = ESP_OK then ⟨⟨true, nvs_open.2⟩, r.2, false⟩
  else
    let d := r.2.dec asserts
    ⟨⟨false, 0⟩, d.2, decide (d.1 = DecResult.aborted)⟩

/-- The destructor `Storage::~Storage()`. -/
def Storage.destruct (asserts : Bool) (st : Storage) (sub : Subsystem) : StorageStep :=
  if st.isValid_ then
    let d := sub.dec asserts
    ⟨⟨false, st.handle_⟩, d.2, decide (d.1 = DecResult.aborted)⟩
  else ⟨st, sub, false⟩

/-! # Theorems -/

/-! ## Line splitting: facts about the specification side -/

theorem set_at_length_append (a : List Nat) (x v : Nat) (b : List Nat) :
    (a ++ x :: b).set a.length v = a ++ v :: b := by
  induction a with
  | nil => rfl
  | cons h t ih => simp [ih]

theorem specLines_of_clean (s : List Nat) (h : ∀ c ∈ s, isTerminator c = false) :
    specLines s = [] ∧ specCarry s = s := by
  have hs : s.splitOnP (fun c => isTerminator c) = [s] :=
    List.splitOnP_eq_single _ _ (by intro x hx; simp [h x hx])
  simp [specLines, specCarry, hs]

theorem specLines_first (seg : List Nat) (t : Nat) (rest : List Nat)
    (h : ∀ c ∈ seg, isTerminator c = false) (ht : isTerminator t = true) :
    specLines (seg ++ t :: rest) = (if seg ≠ [] then [seg] else []) ++ specLines rest ∧
      specCarry (seg ++ t :: rest) = specCarry rest := by
  have hs : (seg ++ t :: rest).splitOnP (fun c => isTerminator c)
      = seg :: rest.splitOnP (fun c => isTerminator c) :=
    List.splitOnP_first _ _ (by intro x hx; simp [h x hx]) t ht rest
  have hne : rest.splitOnP (fun c => isTerminator c) ≠ [] := List.splitOnP_ne_nil _ _
  obtain ⟨a, l, hl⟩ := List.exists_cons_of_ne_nil hne
  constructor
  · simp only [specLines, hs, hl, List.dropLast_cons₂, List.filter_cons]
    by_cases hseg : seg = [] <;> simp [hseg]
  · simp [specCarry, hs, hl, List.getLast?_cons_cons]

theorem split_cases (l : List Nat) :
    (∀ c ∈ l, isTerminator c = false) ∨
      ∃ seg t rest, l = seg ++ t :: rest ∧ (∀ c ∈ seg, isTerminator c = false) ∧
        isTerminator t = true := by
  induction l with
  | nil => left; simp
  | cons x xs ih =>
    by_cases hx : isTerminator x = true
    · right; exact ⟨[], x, xs, rfl, by simp, hx⟩
    · rcases ih with h | ⟨seg, t, rest, he, hs, ht⟩
      · left
        intro c hc
        rcases List.mem_cons.mp hc with rfl | hc
        · simpa using hx
        · exact h c hc
      · right
        refine ⟨x :: seg, t, rest, by simp [he], ?_, ht⟩
        intro c hc
        rcases List.mem_cons.mp hc with rfl | hc
        · simpa using hx
        · exact hs c hc

theorem specCarry_length_le : ∀ (n : Nat) (s : List Nat), s.length ≤ n →
    (specCarry s).length ≤ s.length := by
  intro n
  induction n with
  | zero =>
    intro s hs
    have : s = [] := List.length_eq_zero.mp (by omega)
    subst this
    simp [specCarry]
  | succ n ih =>
    intro s hs
    rcases split_cases s with h | ⟨seg, t, rest, he, hseg, ht⟩
    · rw [(specLines_of_clean s h).2]
    · subst he
      rw [(specLines_first seg t rest hseg ht).2]
      have hr : rest.length ≤ n := by simp at hs; omega
      have := ih rest hr
      simp
      omega

theorem specCarry_clean : ∀ (n : Nat) (s : List Nat), s.length ≤ n →
    ∀ c ∈ specCarry s, isTerminator c = false := by
  intro n
  induction n with
  | zero =>
    intro s hs
    have : s = [] := List.length_eq_zero.mp (by omega)
    subst this
    simp [specCarry]
  | succ n ih =>
    intro s hs
    rcases split_cases s with h | ⟨seg, t, rest, he, hseg, ht⟩
    · rw [(specLines_of_clean s h).2]; exact h
    · subst he
      rw [(specLines_first seg t rest hseg ht).2]
      exact ih rest (by simp at hs; omega)

theorem spec_append : ∀ (n : Nat) (s d : List Nat), s.length ≤ n →
    specLines (s ++ d) = specLines s ++ specLines (specCarry s ++ d) ∧
      specCarry (s ++ d) = specCarry (specCarry s ++ d) := by
  intro n
  induction n with
  | zero =>
    intro s d hs
    have : s = [] := List.length_eq_zero.mp (by omega)
    subst this
    simp [specCarry, specLines]
  | succ n ih =>
    intro s d hs
    rcases split_cases s with h | ⟨seg, t, rest, he, hseg, ht⟩
    · rw [(specLines_of_clean s h).1, (specLines_of_clean s h).2]; simp
    · subst he
      have h1 := specLines_first seg t rest hseg ht
      have h2 := specLines_first seg t (rest ++ d) hseg ht
      have h3 := ih rest d (by simp at hs; omega)
      have e : seg ++ t :: rest ++ d = seg ++ t :: (rest ++ d) := by simp
      rw [e, h2.1, h2.2, h1.1, h1.2, h3.1, h3.2]
      simp

/-! ## Line splitting: the receiver loop against the specification side -/

theorem strpbrkFrom_none (seg rest : List Nat) (i : Nat)
    (h0 : ∀ c ∈ seg, c ≠ 0) (ht : ∀ c ∈ seg, isTerminator c = false) :
    strpbrkFrom (seg ++ 0 :: rest) i = some none := by
  induction seg generalizing i with
  | nil => simp [strpbrkFrom]
  | cons x xs ih =>
    have hx0 : x ≠ 0 := h0 x (by simp)
    have hxt : isTerminator x = false := ht x (by simp)
    simp only [List.cons_append, strpbrkFrom, hx0, hxt, if_false, Bool.false_eq_true]
    exact ih (i + 1) (fun c hc => h0 c (by simp [hc])) (fun c hc => ht c (by simp [hc]))

theorem terminator_ne_zero (t : Nat) (h : isTerminator t = true) : t ≠ 0 := by
  intro h0
  subst h0
  simp [isTerminator, CR, LF] at h

theorem strpbrkFrom_some (seg : List Nat) (t : Nat) (rest : List Nat) (i : Nat)
    (h0 : ∀ c ∈ seg, c ≠ 0) (hs : ∀ c ∈ seg, isTerminator c = false)
    (ht : isTerminator t = true) :
    strpbrkFrom (seg ++ t :: rest) i = some (some (i + seg.length)) := by
  induction seg generalizing i with
  | nil => simp [strpbrkFrom, terminator_ne_zero t ht, ht]
  | cons x xs ih =>
    have hx0 : x ≠ 0 := h0 x (by simp)
    have hxt : isTerminator x = false := hs x (by simp)
    have e := ih (i + 1) (fun c hc => h0 c (by simp [hc])) (fun c hc => hs c (by simp [hc]))
    show strpbrkFrom (x :: (xs ++ t :: rest)) i = _
    simp only [strpbrkFrom, hx0, hxt, if_false, Bool.false_eq_true, e, List.length_cons]
    congr 2
    omega

theorem cstrFrom_append (seg rest : List Nat) (h0 : ∀ c ∈ seg, c ≠ 0) :
    cstrFrom (seg ++ 0 :: rest) = some seg := by
  induction seg with
  | nil => simp [cstrFrom]
  | cons x xs ih =>
    have hx0 : x ≠ 0 := h0 x (by simp)
    simp [cstrFrom, hx0, ih (fun c hc => h0 c (by simp [hc]))]

theorem drop_length_append (pre rest : List Nat) : (pre ++ rest).drop pre.length = rest := by
  simp

/-- The line loop, started at the offset where `rem` begins, with `rem` free of
NUL and followed by a NUL: it returns, forwards the non-empty terminated
segments of `rem`, and leaves the unterminated tail at the buffer start. -/
theorem operateLines_spec (parse : LineHandler) :
    ∀ (fuel : Nat) (rem pre rest : List Nat) (ptr : Option Nat) (len : Nat),
      rem.length < fuel → (∀ c ∈ rem, c ≠ 0) →
      ∃ buf1, operateLines parse fuel (pre ++ rem ++ 0 :: rest) pre.length ptr len
          = some (⟨buf1, some (specCarry rem).length, BUFFER_SIZE - (specCarry rem).length⟩,
              specLines rem) ∧
        buf1.length = (pre ++ rem ++ 0 :: rest).length ∧
        buf1.take (specCarry rem).length = specCarry rem := by
  intro fuel
  induction fuel with
  | zero => intro rem pre rest ptr len h; omega
  | succ fuel ih =>
    intro rem pre rest ptr len hlen h0
    rcases split_cases rem with h | ⟨seg, t, more, he, hseg, ht⟩
    · have hc := specLines_of_clean rem h
      rw [hc.1, hc.2]
      have e1 : strpbrk (pre ++ rem ++ 0 :: rest) pre.length = some none := by
        unfold strpbrk
        rw [List.append_assoc, drop_length_append]
        exact strpbrkFrom_none rem rest _ h0 h
      have e2 : strlen (pre ++ rem ++ 0 :: rest) pre.length = some rem.length := by
        unfold strlen cstr
        rw [List.append_assoc, drop_length_append, cstrFrom_append rem rest h0]
        rfl
      have e3 : memmove (pre ++ rem ++ 0 :: rest) 0 pre.length rem.length
          = some (rem ++ (pre ++ rem ++ 0 :: rest).drop rem.length) := by
        unfold memmove
        rw [if_pos (by simp; omega)]
        have : ((pre ++ rem ++ 0 :: rest).drop pre.length).take rem.length = rem := by
          rw [List.append_assoc, drop_length_append]; simp
        simp [this]
      refine ⟨rem ++ (pre ++ rem ++ 0 :: rest).drop rem.length, ?_, ?_, ?_⟩
      · simp only [operateLines, e1, e2, e3]
      · simp; omega
      · simp
    · subst he
      have hsp := specLines_first seg t more hseg ht
      rw [hsp.1, hsp.2]
      have h0seg : ∀ c ∈ seg, c ≠ 0 := fun c hc => h0 c (by simp [hc])
      have h0more : ∀ c ∈ more, c ≠ 0 := fun c hc => h0 c (by simp [hc])
      have e1 : strpbrk (pre ++ (seg ++ t :: more) ++ 0 :: rest) pre.length
          = some (some (pre.length + seg.length)) := by
        unfold strpbrk
        rw [List.append_assoc, drop_length_append, List.append_assoc]
        exact strpbrkFrom_some seg t _ _ h0seg hseg ht
      have eb : pre ++ (seg ++ t :: more) ++ 0 :: rest
          = (pre ++ seg) ++ t :: (more ++ 0 :: rest) := by simp
      have e2 : writeAt (pre ++ (seg ++ t :: more) ++ 0 :: rest) (pre.length + seg.length) 0
          = some ((pre ++ seg ++ [0]) ++ more ++ 0 :: rest) := by
        unfold writeAt
        rw [if_pos (by simp only [List.length_append, List.length_cons]; omega), eb]
        have := set_at_length_append (pre ++ seg) t 0 (more ++ 0 :: rest)
        rw [List.length_append] at this
        rw [this]
        simp only [List.append_assoc, List.singleton_append, List.cons_append, List.nil_append]
      have e3 : cstr ((pre ++ seg ++ [0]) ++ more ++ 0 :: rest) pre.length = some seg := by
        unfold cstr
        have : (pre ++ seg ++ [0]) ++ more ++ 0 :: rest
            = pre ++ (seg ++ 0 :: (more ++ 0 :: rest)) := by simp
        rw [this, drop_length_append]
        exact cstrFrom_append seg _ h0seg
      have hl : (pre ++ seg ++ [0]).length = pre.length + seg.length + 1 := by
        simp only [List.length_append, List.length_singleton]
      have hm : more.length < fuel := by simp at hlen; omega
      obtain ⟨buf1, hrun, hlen1, htake⟩ :=
        ih more (pre ++ seg ++ [0])  rest
          (if (decide (seg ≠ []) && !parse seg ((pre.length : Int) - (((pre.length + seg.length : Nat) : Int) + 1)))
            then none else ptr) len hm h0more
      rw [hl] at hrun
      refine ⟨buf1, ?_, ?_, htake⟩
      · simp only [operateLines, e1, e2, e3, hrun]
        by_cases hs : seg = [] <;> simp [hs]
      · rw [hlen1]; simp

theorem specCarry_mem : ∀ (n : Nat) (s : List Nat), s.length ≤ n →
    ∀ c ∈ specCarry s, c ∈ s := by
  intro n
  induction n with
  | zero =>
    intro s hs
    have : s = [] := List.length_eq_zero.mp (by omega)
    subst this
    simp [specCarry]
  | succ n ih =>
    intro s hs
    rcases split_cases s with h | ⟨seg, t, rest, he, hseg, ht⟩
    · rw [(specLines_of_clean s h).2]; exact fun c hc => hc
    · subst he
      rw [(specLines_first seg t rest hseg ht).2]
      intro c hc
      have := ih rest (by simp at hs; omega) c hc
      simp [this]

theorem nextRequest_of_carries (st : RecvState) (carry : List Nat) (h : Carries st carry) :
    nextRequest st = BUFFER_SIZE - 1 - carry.length := by
  obtain ⟨_, hc, h | h⟩ := h
  · simp [nextRequest, h.1, h.2, BUFFER_SIZE, SIZE_MOD]
  · simp only [nextRequest, h.1, h.2.1, BUFFER_SIZE, SIZE_MOD, Option.isNone_some] at hc ⊢
    simp only [Bool.false_eq_true, if_false]
    omega

/-- One iteration with a successful read of NUL-free bytes that fit the
request: it returns, forwards the non-empty terminated segments of the held
data followed by the new bytes, and holds the unterminated tail afterwards. -/
theorem recvCycle_data (parse : LineHandler) (st : RecvState) (carry d : List Nat)
    (hinv : Carries st carry) (h0c : ∀ c ∈ carry, c ≠ 0) (h0 : ∀ c ∈ d, c ≠ 0)
    (hpos : 0 < d.length) (hfit : d.length ≤ nextRequest st) :
    ∃ out, recvCycle parse st (.data d) = some out ∧
      out.lines = specLines (carry ++ d) ∧ Carries out.state (specCarry (carry ++ d)) := by
  rw [nextRequest_of_carries st carry hinv] at hfit
  obtain ⟨hlen, hc, hcase⟩ := hinv
  simp only [BUFFER_SIZE] at hlen hc hfit
  have hptr : st.bufPtr.getD 0 = carry.length := by
    rcases hcase with h | h
    · simp [h.1, h.2]
    · simp [h.1]
  have hL : (if st.bufPtr.isNone then BUFFER_SIZE else st.bufLength)
      = BUFFER_SIZE - carry.length := by
    rcases hcase with h | h
    · simp [h.1, h.2]
    · simp [h.1, h.2.1]
  have htake : st.buffer.take carry.length = carry := by
    rcases hcase with h | h
    · simp [h.2]
    · exact h.2.2
  have hne : st.buffer.drop (carry.length + d.length) ≠ [] := by
    intro hnil
    have := congrArg List.length hnil
    simp at this
    omega
  obtain ⟨x, xb, hx⟩ := List.exists_cons_of_ne_nil hne
  have hxb : xb.length + 1 = 128 - (carry.length + d.length) := by
    have := congrArg List.length hx
    simp at this
    omega
  have e1 : writeBytes st.buffer carry.length d = some ((carry ++ d) ++ x :: xb) := by
    unfold writeBytes
    rw [if_pos (by omega), htake, hx]
  have e2 : writeAt ((carry ++ d) ++ x :: xb) (carry.length + d.length) 0
      = some ([] ++ (carry ++ d) ++ 0 :: xb) := by
    unfold writeAt
    rw [if_pos (by simp only [List.length_append, List.length_cons]; omega)]
    have := set_at_length_append (carry ++ d) x 0 xb
    rw [List.length_append] at this
    rw [this]
    rfl
  have h0cd : ∀ c ∈ carry ++ d, c ≠ 0 := by
    intro c hcm
    rcases List.mem_append.mp hcm with h | h
    · exact h0c c h
    · exact h0 c h
  obtain ⟨buf1, hrun, hlen1, htk⟩ :=
    operateLines_spec parse (BUFFER_SIZE + 1) (carry ++ d) [] xb
      (some carry.length) (BUFFER_SIZE - carry.length)
      (by simp only [BUFFER_SIZE, List.length_append]; omega) h0cd
  have hcl := specCarry_length_le _ (carry ++ d) (le_refl _)
  simp only [List.length_append] at hcl
  refine ⟨⟨⟨buf1, some (specCarry (carry ++ d)).length,
      BUFFER_SIZE - (specCarry (carry ++ d)).length⟩, st.bufPtr.isNone,
      (BUFFER_SIZE - carry.length + (SIZE_MOD - 1)) % SIZE_MOD, specLines (carry ++ d)⟩,
      ?_, rfl, ?_⟩
  · have hd : d.length ≠ 0 := by omega
    simp only [recvCycle, hptr, hL, e1, e2, hd, if_false]
    simp only [List.length_nil] at hrun
    rw [hrun]
  · refine ⟨?_, ?_, Or.inr ⟨rfl, rfl, htk⟩⟩
    · show buf1.length = BUFFER_SIZE
      rw [hlen1]
      simp only [BUFFER_SIZE, List.length_append, List.length_cons, List.length_nil]
      omega
    · simp only [BUFFER_SIZE]
      omega

/-- Successive successful reads of NUL-free bytes, each fitting its request:
the run returns, and the lines forwarded are the non-empty terminated segments
of the data held at the start followed by all the bytes read. -/
theorem recvRun_data (parse : LineHandler) :
    ∀ (chunks : List (List Nat)) (st : RecvState) (carry : List Nat),
      Carries st carry → (∀ c ∈ carry, c ≠ 0) → (∀ c ∈ carry, isTerminator c = false) →
      (∀ d ∈ chunks, ∀ c ∈ d, c ≠ 0) →
      readsFit parse st chunks = true →
      ∃ st1, recvRun parse st (chunks.map ReadResult.data)
          = some (st1, specLines (carry ++ chunks.flatten)) ∧
        Carries st1 (specCarry (carry ++ chunks.flatten)) := by
  intro chunks
  induction chunks with
  | nil =>
    intro st carry hinv _ hcl _ _
    have hc := specLines_of_clean carry hcl
    refine ⟨st, ?_, ?_⟩
    · simp [recvRun, hc.1]
    · simpa [hc.2] using hinv
  | cons d ds ih =>
    intro st carry hinv h0c hcl h0 hfit
    have h0d : ∀ c ∈ d, c ≠ 0 := h0 d (by simp)
    simp only [readsFit, Bool.and_eq_true, decide_eq_true_eq] at hfit
    obtain ⟨⟨hpos, hle⟩, hrest⟩ := hfit
    obtain ⟨out, hcyc, hlines, hcar⟩ := recvCycle_data parse st carry d hinv h0c h0d hpos hle
    rw [hcyc] at hrest
    have h0cd : ∀ c ∈ carry ++ d, c ≠ 0 := by
      intro c hcm
      rcases List.mem_append.mp hcm with h | h
      · exact h0c c h
      · exact h0d c h
    obtain ⟨st1, hrun, hcar1⟩ :=
      ih out.state (specCarry (carry ++ d)) hcar
        (fun c hc => h0cd c (specCarry_mem _ _ (le_refl _) c hc))
        (specCarry_clean _ _ (le_refl _))
        (fun e he => h0 e (by simp [he])) hrest
    have hsp := spec_append _ (carry ++ d) ds.flatten (le_refl _)
    refine ⟨st1, ?_, ?_⟩
    · simp only [List.map_cons, recvRun, hcyc, hrun, hlines, List.flatten_cons]
      rw [← List.append_assoc, hsp.1]
    · rw [List.flatten_cons, ← List.append_assoc, hsp.2]
      exact hcar1

/-! ## C1: carry-over correctness of the receiver -/

/-- C1 (as amended).  For every stream of bytes none of which is NUL, cut in any
way into successive successful reads, each non-empty and no longer than the size
the receiver asked for (remaining capacity minus one), and for every line
handler: the receiver loop returns from every cycle, the lines it hands to the
handler over all cycles are, in order, exactly the non-empty segments that a CR
or LF closes in the concatenated stream, and the unterminated tail of the stream
is held before the write cursor as carry-over and not forwarded. -/
theorem recvReceiver_forwards_split_lines (parse : LineHandler) (junk : List Nat)
    (chunks : List (List Nat)) (hjunk : junk.length = BUFFER_SIZE)
    (hnul : ∀ d ∈ chunks, ∀ c ∈ d, c ≠ 0)
    (hfit : readsFit parse (recvStart junk) chunks = true) :
    ∃ st, recvRun parse (recvStart junk) (chunks.map ReadResult.data)
        = some (st, specLines chunks.flatten) ∧
      Carries st (specCarry chunks.flatten) := by
  have hinv : Carries (recvStart junk) [] :=
    ⟨hjunk, by simp [BUFFER_SIZE], Or.inl ⟨rfl, rfl⟩⟩
  simpa using recvRun_data parse chunks (recvStart junk) [] hinv (by simp) (by simp) hnul hfit

/-- C1, witness: the reads "AT+CSQ\r" and "\nOK\r\n" satisfy the hypotheses, and
the receiver forwards exactly "AT+CSQ" and then "OK", holding no carry-over. -/
theorem recvReceiver_forwards_split_lines_witness :
    ∃ st, recvRun recvParseLine (recvStart (List.replicate 128 0))
        ([[65, 84, 43, 67, 83, 81, 13], [10, 79, 75, 13, 10]].map ReadResult.data)
        = some (st, [[65, 84, 43, 67, 83, 81], [79, 75]]) ∧
      Carries st [] :=
  recvReceiver_forwards_split_lines recvParseLine (List.replicate 128 0)
    [[65, 84, 43, 67, 83, 81, 13], [10, 79, 75, 13, 10]] (by decide) (by decide) (by decide)

/-- C1, counterexample to the claim as stated: the single read "A", NUL, "B",
LF fits the request and has no line longer than the buffer, the split of the
stream on CR or LF has the one non-empty segment "A", NUL, "B", yet the receiver
forwards no line (it stops at the NUL and keeps "A" as carry-over). -/
theorem recvReceiver_nul_stream_counterexample :
    readsFit recvParseLine (recvStart (List.replicate 128 0)) [[65, 0, 66, 10]] = true ∧
      (∀ l ∈ [65, 0, 66, 10].splitOnP (fun c => isTerminator c), l.length ≤ BUFFER_SIZE) ∧
      specLines [65, 0, 66, 10] = [[65, 0, 66]] ∧
      (recvRun recvParseLine (recvStart (List.replicate 128 0))
        [ReadResult.data [65, 0, 66, 10]]).map (fun r => (r.2, r.1.bufPtr, r.1.bufLength))
        = some ([], some 1, 127) := by
  decide

/-! ## C4: a rejected line and the flush -/

/-- The line loop never leaves the write cursor at `nullptr`: its last pass
stores `buffer + length` in it. -/
theorem operateLines_bufPtr (parse : LineHandler) :
    ∀ (fuel : Nat) (buf : List Nat) (line : Nat) (ptr : Option Nat) (len : Nat)
      (st : RecvState) (ls : List (List Nat)),
      operateLines parse fuel buf line ptr len = some (st, ls) →
      ∃ n, st.bufPtr = some n ∧ st.bufLength = BUFFER_SIZE - n := by
  intro fuel
  induction fuel with
  | zero => intro buf line ptr len st ls h; simp [operateLines] at h
  | succ fuel ih =>
    intro buf line ptr len st ls h
    simp only [operateLines] at h
    split at h
    · simp at h
    · split at h
      · simp at h
      · split at h
        · simp at h
        · simp only [Option.some.injEq, Prod.mk.injEq] at h
          obtain ⟨h1, _⟩ := h
          subst h1
          exact ⟨_, rfl, rfl⟩
    · split at h
      · simp at h
      · split at h
        · simp at h
        · split at h
          · simp at h
          · rename_i st1 ls1 hrec
            simp only [Option.some.injEq, Prod.mk.injEq] at h
            obtain ⟨h1, _⟩ := h
            subst h1
            exact ih _ _ _ _ _ _ hrec

/-- A cycle with a successful read never ends with the write cursor at
`nullptr`, whatever the handler answered: the next cycle does not flush. -/
theorem recvCycle_data_bufPtr (parse : LineHandler) (st : RecvState) (d : List Nat)
    (out : CycleOut) (h : recvCycle parse st (ReadResult.data d) = some out) :
    ∃ n, out.state.bufPtr = some n := by
  simp only [recvCycle] at h
  split at h
  · simp at h
  · split at h
    · simp only [Option.some.injEq] at h
      subst h
      exact ⟨_, rfl⟩
    · split at h
      · simp at h
      · split at h
        · simp at h
        · rename_i st1 ls hrun
          simp only [Option.some.injEq] at h
          subst h
          obtain ⟨n, hn, _⟩ := operateLines_bufPtr parse _ _ _ _ _ _ _ hrun
          exact ⟨n, hn⟩

/-- C4 (the code at the failing input).  With a handler that rejects every
line, the read "X", LF, "Y" on a fresh receiver forwards "X" and ends with the
write cursor one byte into the buffer, remaining capacity 127 and "Y" kept as
carry-over, so the next cycle does not flush; the same receiver after a read
error ends with the cursor at `nullptr`, so the next cycle flushes. -/
theorem recvCycle_rejected_line_keeps_data :
    (recvCycle (fun _ _ => false) (recvStart (List.replicate 128 0))
        (ReadResult.data [88, 10, 89])).map
        (fun o => (o.lines, o.state.bufPtr, o.state.bufLength, o.state.buffer.take 1))
      = some ([[88]], some 1, 127, [89]) ∧
    (recvCycle (fun _ _ => false) (recvStart (List.replicate 128 0)) ReadResult.error).map
        (fun o => (o.lines, o.state.bufPtr, o.state.bufLength))
      = some ([], none, 128) ∧
    nextRequest ⟨List.replicate 128 0, some 1, 127⟩ = 126 ∧
    nextRequest ⟨List.replicate 128 0, none, 128⟩ = 127 := by
  decide

/-! ## C2, C3: the pin commands -/

/-- C2 (the code at the failing input).  Whatever the driver answers, the
command `pinout 12 1` makes no driver call and returns `ESP_ERR_INVALID_ARG`:
the one character used in "1" is compared with the length of "12".  The same
handler on `pinout 5 1`, where the two lengths agree, configures pin 5 as an
output, drives it high and returns `ESP_OK`. -/
theorem pinOutput_two_digit_pin_rejected (gpio_config : Nat → GpioMode → Int) :
    pinOutput gpio_config ["pinout", "12", "1"]
        = (Outcome.returned ESP_ERR_INVALID_ARG, []) ∧
      pinOutput (fun _ _ => ESP_OK) ["pinout", "5", "1"]
        = (Outcome.returned ESP_OK,
            [PinCall.gpio_config 32 GpioMode.GPIO_MODE_OUTPUT, PinCall.gpio_set_level 5 1]) := by
  constructor
  · rfl
  · decide

/-- C3 (the code at the failing input).  For a pin argument without a digit,
`pinout abc 1`, `pinin abc` and `pinoff abc` make no driver call and do not
return: `std::stoi` throws `std::invalid_argument` and no handler catches it.
And `pinout 1 1x`, whose value is malformed, returns `ESP_OK` after configuring
pin 1 and driving it high. -/
theorem pin_handlers_throw_on_non_numeric (gpio_config : Nat → GpioMode → Int)
    (gpio_get_level : Int → Int) :
    pinOutput gpio_config ["pinout", "abc", "1"]
        = (Outcome.threw StoiError.invalid_argument, []) ∧
      pinInput gpio_config gpio_get_level ["pinin", "abc"]
        = (Outcome.threw StoiError.invalid_argument, []) ∧
      pinDisable gpio_config ["pinoff", "abc"]
        = (Outcome.threw StoiError.invalid_argument, []) ∧
      pinOutput (fun _ _ => ESP_OK) ["pinout", "1", "1x"]
        = (Outcome.returned ESP_OK,
            [PinCall.gpio_config 2 GpioMode.GPIO_MODE_OUTPUT, PinCall.gpio_set_level 1 1]) := by
  refine ⟨rfl, rfl, rfl, ?_⟩
  decide

/-! ## C5: the outcomes of the interactive loop -/

/-- C5 (as amended).  One pass of the interactive loop, for any dispatcher and
any indicator texts: a null line or a line of length zero is skipped (not
dispatched, nothing printed); every other line is dispatched; when the dispatch
does not return, nothing is printed for the line and the pass does not end;
when it returns, exactly one text is printed for the line and the pass ends:
"Empty command" when the dispatcher answers `ESP_ERR_INVALID_ARG`,
"Unrecognized command" when it answers `ESP_ERR_NOT_FOUND`, the OK indicator
when it answers `ESP_OK` and the handler status is 0, the error indicator with
the name and number of the status `c` when it answers `ESP_OK` and the handler
status is `c`, not 0, and "Internal error: " with the name of the answer for
any other answer. -/
theorem consoleLoopPass_outcomes (CONSOLE_OK CONSOLE_ERROR : String)
    (esp_err_to_name : Int → String) (esp_console_run : String → Option (Int × Option Int)) :
    consoleLoopPass CONSOLE_OK CONSOLE_ERROR esp_err_to_name esp_console_run none
        = ⟨false, [], true⟩ ∧
      (∀ l, cstrOf l = [] →
        consoleLoopPass CONSOLE_OK CONSOLE_ERROR esp_err_to_name esp_console_run (some l)
          = ⟨false, [], true⟩) ∧
      (∀ l, cstrOf l ≠ [] → esp_console_run l = none →
        consoleLoopPass CONSOLE_OK CONSOLE_ERROR esp_err_to_name esp_console_run (some l)
          = ⟨true, [], false⟩) ∧
      (∀ l err ret, cstrOf l ≠ [] → esp_console_run l = some (err, ret) →
        (err = ESP_ERR_INVALID_ARG →
          consoleLoopPass CONSOLE_OK CONSOLE_ERROR esp_err_to_name esp_console_run (some l)
            = ⟨true, ["Empty command\n"], true⟩) ∧
        (err = ESP_ERR_NOT_FOUND →
          consoleLoopPass CONSOLE_OK CONSOLE_ERROR esp_err_to_name esp_console_run (some l)
            = ⟨true, ["Unrecognized command\n"], true⟩) ∧
        (err = ESP_OK → ret.getD 0 = 0 →
          consoleLoopPass CONSOLE_OK CONSOLE_ERROR esp_err_to_name esp_console_run (some l)
            = ⟨true, [CONSOLE_OK ++ "\n"], true⟩) ∧
        (∀ c : Int, err = ESP_OK → ret = some c → c ≠ 0 →
          consoleLoopPass CONSOLE_OK CONSOLE_ERROR esp_err_to_name esp_console_run (some l)
            = ⟨true, [CONSOLE_ERROR ++ " " ++ esp_err_to_name c ++ "(" ++ toString c ++ ")\n"],
                true⟩) ∧
        (err ≠ ESP_ERR_INVALID_ARG → err ≠ ESP_ERR_NOT_FOUND → err ≠ ESP_OK →
          consoleLoopPass CONSOLE_OK CONSOLE_ERROR esp_err_to_name esp_console_run (some l)
            = ⟨true, ["Internal error: " ++ esp_err_to_name err ++ "\n"], true⟩) ∧
        (consoleLoopPass CONSOLE_OK CONSOLE_ERROR esp_err_to_name esp_console_run
          (some l)).printed.length = 1 ∧
        (consoleLoopPass CONSOLE_OK CONSOLE_ERROR esp_err_to_name esp_console_run
          (some l)).completed = true) := by
  refine ⟨rfl, ?_, ?_, ?_⟩
  · intro l hl
    simp [consoleLoopPass, hl]
  · intro l hl hrun
    simp [consoleLoopPass, hl, hrun]
  · intro l err ret hl hrun
    refine ⟨?_, ?_, ?_, ?_, ?_, ?_, ?_⟩
    · intro h
      simp [consoleLoopPass, hl, hrun, h, ESP_ERR_INVALID_ARG, ESP_ERR_NOT_FOUND]
    · intro h
      simp [consoleLoopPass, hl, hrun, h]
    · intro h h0
      simp [consoleLoopPass, hl, hrun, h, h0, ESP_OK, ESP_ERR_INVALID_ARG, ESP_ERR_NOT_FOUND]
    · intro c h hc hc0
      simp [consoleLoopPass, hl, hrun, h, hc, hc0, ESP_OK, ESP_ERR_INVALID_ARG,
        ESP_ERR_NOT_FOUND]
    · intro h1 h2 h3
      simp [consoleLoopPass, hl, hrun, h1, h2, h3]
    · simp only [consoleLoopPass, hl, hrun, if_false]
      split_ifs <;> rfl
    · simp only [consoleLoopPass, hl, hrun, if_false]
      split_ifs <;> rfl

/-- C5, witness: with a dispatcher that runs a handler returning 258 for every
line, the line "pinout" is not empty and the pass prints the error indicator
with the name and the number 258. -/
theorem consoleLoopPass_outcomes_witness :
    cstrOf "pinout" ≠ [] ∧
      consoleLoopPass "OK" "Error:" (fun _ => "ESP_ERR_INVALID_ARG")
          (fun _ => some (ESP_OK, some 258)) (some "pinout")
        = ⟨true, ["Error:" ++ " " ++ "ESP_ERR_INVALID_ARG" ++ "(" ++ toString (258 : Int) ++ ")\n"],
            true⟩ :=
  ⟨by decide,
    ((consoleLoopPass_outcomes "OK" "Error:" (fun _ => "ESP_ERR_INVALID_ARG")
      (fun _ => some (ESP_OK, some 258))).2.2.2 "pinout" ESP_OK (some 258) (by decide)
      rfl).2.2.2.1 258 rfl rfl (by decide)⟩

/-- C5, counterexample to the claim as stated: for the empty line the pass
prints nothing, also with a dispatcher that would answer `ESP_ERR_INVALID_ARG`;
for the line "x" with a dispatcher answering `ESP_FAIL` the pass prints an
"Internal error" text, none of the four outcomes of the claim; and for the line
"reboot" with a dispatch that does not return the pass prints nothing. -/
theorem consoleLoopPass_empty_line_counterexample :
    consoleLoopPass "OK" "Error:" (fun _ => "E") (fun _ => some (ESP_ERR_INVALID_ARG, none))
        (some "") = ⟨false, [], true⟩ ∧
      consoleLoopPass "OK" "Error:" (fun _ => "E") (fun _ => some (ESP_FAIL, none)) (some "x")
        = ⟨true, ["Internal error: E\n"], true⟩ ∧
      consoleLoopPass "OK" "Error:" (fun _ => "E") (fun _ => none) (some "reboot")
        = ⟨true, [], false⟩ := by
  refine ⟨?_, ?_, ?_⟩ <;> decide

/-! ## C6, C10: the reference counter -/

theorem holders_replicate_acquire (n : Nat) : holders (List.replicate n RefOp.acquire) = n := by
  induction n with
  | zero => rfl
  | succ n ih => simp [List.replicate_succ, holders, ih]

/-- The counter after a linearised sequence in which no prefix releases more
than was acquired or reaches the largest `size_t`. -/
theorem run_count (asserts : Bool) : ∀ (ops : List RefOp) (s : Subsystem), 1 ≤ s.count_ →
    (∀ k, k ≤ ops.length → 0 ≤ (s.count_ : Int) - 1 + holders (ops.take k) ∧
      (s.count_ : Int) - 1 + holders (ops.take k) < 4294967295) →
    ((Subsystem.run asserts s ops).1.count_ : Int) = s.count_ + holders ops ∧
      (Subsystem.run asserts s ops).2 = true := by
  intro ops
  induction ops with
  | nil => intro s _ _; simp [Subsystem.run, holders]
  | cons op ops ih =>
    intro s hs h
    have h1 := h 1 (by simp)
    have h0 := h 0 (by simp)
    simp only [List.take_zero, holders, add_zero] at h0
    cases op with
    | acquire =>
      simp only [List.take_succ_cons, List.take_zero, holders] at h1
      have hc : s.count_ ≠ 0 := by omega
      have hm : (s.count_ + 1) % SIZE_MOD = s.count_ + 1 := by
        simp only [SIZE_MOD]; omega
      have hstep : s.step asserts RefOp.acquire = (⟨s.count_ + 1⟩, true) := by
        simp [Subsystem.step, Subsystem.inc, hc, hm]
      have := ih ⟨s.count_ + 1⟩ (by simp) (by
        intro k hk
        have := h (k + 1) (by simp; omega)
        simp only [List.take_succ_cons, holders] at this
        push_cast
        omega)
      simp only [Subsystem.run, hstep, holders, Bool.true_and]
      push_cast at this
      constructor
      · omega
      · exact this.2
    | release =>
      simp only [List.take_succ_cons, List.take_zero, holders] at h1
      have hc : s.count_ ≠ 0 := by omega
      have hc1 : s.count_ ≠ 1 := by omega
      have hstep : s.step asserts RefOp.release = (⟨s.count_ - 1⟩, true) := by
        simp [Subsystem.step, Subsystem.dec, hc, hc1]
      have hge : 2 ≤ s.count_ := by omega
      have := ih ⟨s.count_ - 1⟩ (by simp; omega) (by
        intro k hk
        have := h (k + 1) (by simp; omega)
        simp only [List.take_succ_cons, holders] at this
        push_cast [hge]
        omega)
      simp only [Subsystem.run, hstep, holders, Bool.true_and]
      push_cast [hge] at this
      constructor
      · omega
      · exact this.2

theorem run_replicate_acquire (asserts : Bool) : ∀ (n c : Nat), 1 ≤ c → c < SIZE_MOD →
    c + n ≤ SIZE_MOD →
    (Subsystem.run asserts ⟨c⟩ (List.replicate n RefOp.acquire)).1.count_ = (c + n) % SIZE_MOD := by
  intro n
  induction n with
  | zero =>
    intro c hc hlt h
    simp only [SIZE_MOD] at hlt
    simp only [List.replicate_zero, Subsystem.run, add_zero, SIZE_MOD]
    omega
  | succ n ih =>
    intro c hc hlt h
    simp only [SIZE_MOD] at hlt h
    have hc0 : c ≠ 0 := by omega
    by_cases hw : c + 1 < 4294967296
    · have hm : (c + 1) % SIZE_MOD = c + 1 := by simp only [SIZE_MOD]; omega
      have := ih (c + 1) (by omega) (by simp only [SIZE_MOD]; omega)
        (by simp only [SIZE_MOD]; omega)
      simp only [List.replicate_succ, Subsystem.run, Subsystem.step, Subsystem.inc, hc0,
        if_false, hm]
      rw [this]
      congr 1
      omega
    · have hn : n = 0 := by omega
      have hcv : c = 4294967295 := by omega
      subst hn
      subst hcv
      simp [Subsystem.run, Subsystem.step, Subsystem.inc, SIZE_MOD]

/-- C6 (as amended).  From an initialised subsystem (counter 1), for every
linearised sequence of `inc` and `dec` steps in which no release comes without
an earlier unmatched acquire and in which the holders stay below 4294967295 (the
largest `size_t`): after every prefix of the sequence the counter equals 1 plus
acquires minus releases, it is not 0, and every call has returned `true`. -/
theorem subsystem_counter_tracks_holders (asserts : Bool) (ops : List RefOp)
    (hbal : ∀ k, k ≤ ops.length → 0 ≤ holders (ops.take k))
    (hbound : ∀ k, k ≤ ops.length → holders (ops.take k) < 4294967295) :
    ∀ k, ((Subsystem.run asserts ⟨1⟩ (ops.take k)).1.count_ : Int) = 1 + holders (ops.take k) ∧
      (Subsystem.run asserts ⟨1⟩ (ops.take k)).1.count_ ≠ 0 ∧
      (Subsystem.run asserts ⟨1⟩ (ops.take k)).2 = true := by
  intro k
  have hpre : ∀ j, j ≤ (ops.take k).length →
      0 ≤ ((1 : Nat) : Int) - 1 + holders ((ops.take k).take j) ∧
        ((1 : Nat) : Int) - 1 + holders ((ops.take k).take j) < 4294967295 := by
    intro j hj
    rw [List.take_take]
    have hle : min j k ≤ ops.length := by
      simp only [List.length_take] at hj
      omega
    have h1 := hbal (min j k) hle
    have h2 := hbound (min j k) hle
    constructor <;> simp <;> omega
  have h := run_count asserts (ops.take k) ⟨1⟩ (le_refl 1) hpre
  have hk := hpre (ops.take k).length (le_refl _)
  rw [List.take_length] at hk
  refine ⟨by simpa using h.1, ?_, h.2⟩
  intro h0
  have := h.1
  rw [h0] at this
  simp at this
  omega

/-- C6, witness: two callers acquire, one releases, a third acquires, all
release; the hypotheses hold and the counter is back at 1 at the end. -/
theorem subsystem_counter_tracks_holders_witness :
    ((Subsystem.run true ⟨1⟩
        [RefOp.acquire, RefOp.acquire, RefOp.release, RefOp.acquire, RefOp.release,
          RefOp.release]).1.count_ : Int) = 1 + 0 ∧
      (Subsystem.run true ⟨1⟩
        ([RefOp.acquire, RefOp.acquire, RefOp.release, RefOp.acquire, RefOp.release,
          RefOp.release].take 2)).1.count_ = 3 :=
  ⟨(subsystem_counter_tracks_holders true
      [RefOp.acquire, RefOp.acquire, RefOp.release, RefOp.acquire, RefOp.release, RefOp.release]
      (by decide) (by decide) 6).1, by decide⟩

/-- C6, counterexample to the claim as stated: 4294967295 acquires with no
release, every one of them returning `true`, leave 4294967295 holders and the
counter at 0 (the `size_t` sum wraps), not at 4294967296. -/
theorem subsystem_counter_wraps_counterexample :
    (Subsystem.run true ⟨1⟩ (List.replicate 4294967295 RefOp.acquire)).1.count_ = 0 ∧
      holders (List.replicate 4294967295 RefOp.acquire) = 4294967295 := by
  constructor
  · rw [run_replicate_acquire true 4294967295 1 (by decide) (by decide) (by decide)]
    decide
  · rw [holders_replicate_acquire]
    rfl

theorem decLogged_eq_dec (asserts : Bool) (s : Subsystem) :
    ((Subsystem.decLogged asserts s).1, (Subsystem.decLogged asserts s).2.1)
      = Subsystem.dec asserts s := by
  simp only [Subsystem.decLogged, Subsystem.dec]
  split_ifs <;> rfl

/-- C10 (as amended).  `Subsystem::dec` called while the counter is 1 leaves the
counter at 1 and never returns `false`; where `assert` is compiled in, it
aborts the program and does not return to its caller; where `assert` is
compiled out, it returns `true`; in both cases it has first written the one
line "NVS-flash -- overrefs refs" to the error log under the tag "NVS", and a
call at any other counter value writes no line. -/
theorem subsystem_dec_at_one (asserts : Bool) :
    (Subsystem.dec asserts ⟨1⟩).2 = ⟨1⟩ ∧
      (Subsystem.dec asserts ⟨1⟩).1 ≠ DecResult.returned false ∧
      (asserts = true → (Subsystem.dec asserts ⟨1⟩).1 = DecResult.aborted) ∧
      (asserts = false → (Subsystem.dec asserts ⟨1⟩).1 = DecResult.returned true) ∧
      Subsystem.decLogged asserts ⟨1⟩
        = ((Subsystem.dec asserts ⟨1⟩).1, ⟨1⟩,
            [LogLine.ESP_LOGE "NVS" "NVS-flash -- overrefs refs"]) ∧
      (∀ s : Subsystem, s.count_ ≠ 1 →
        Subsystem.decLogged asserts s
          = ((Subsystem.dec asserts s).1, (Subsystem.dec asserts s).2, [])) := by
  refine ⟨?_, ?_, ?_, ?_, ?_, ?_⟩
  · cases asserts <;> simp [Subsystem.dec]
  · cases asserts <;> simp [Subsystem.dec]
  · cases asserts <;> simp [Subsystem.dec]
  · cases asserts <;> simp [Subsystem.dec]
  · cases asserts <;> simp [Subsystem.dec, Subsystem.decLogged, Subsystem.MODULE]
  · intro s hs
    simp only [Subsystem.decLogged, Subsystem.dec, hs, if_false]
    split_ifs <;> rfl

/-- C10, witness: with `assert` compiled in, the call aborts. -/
theorem subsystem_dec_at_one_witness :
    (Subsystem.dec true ⟨1⟩).1 = DecResult.aborted :=
  (subsystem_dec_at_one true).2.2.1 rfl

/-- C10, counterexample to the claim as stated: with `assert` compiled out, the
call at counter 1 returns `true` to its caller. -/
theorem subsystem_dec_at_one_returns_true_counterexample :
    Subsystem.dec false ⟨1⟩ = (DecResult.returned true, ⟨1⟩) := by
  decide

/-! ## C7, C8, C9: the typed store -/

/-- C9.  On a store whose validity flag is false, for every engine and engine
content: each of the four typed reads returns the default it was given, each of
the four typed writes returns `false` and leaves the engine content as it was,
and none of them makes an engine call. -/
theorem storage_invalid_no_engine {σ : Type} (E : NvsEngine σ) (s : σ) (st : Storage)
    (hinvalid : st.isValid_ = false) (name : String) (fuel : Nat) :
    (∀ d : Int, Storage.getInt E s st name d = (d, [])) ∧
      (∀ d : Nat, Storage.getUnsigned E s st name d = (d, [])) ∧
      (∀ d : Nat, Storage.getFloat E s st name d = (d, [])) ∧
      (∀ d : List Nat, Storage.getString E fuel s st name d = some (d, [])) ∧
      (∀ v : Int, Storage.setInt E s st name v = (false, s, [])) ∧
      (∀ v : Nat, Storage.setUnsigned E s st name v = (false, s, [])) ∧
      (∀ v : Nat, Storage.setFloat E s st name v = (false, s, [])) ∧
      (∀ v : List Nat, Storage.setString E s st name v = (false, s, [])) := by
  simp [Storage.getInt, Storage.getUnsigned, Storage.getFloat, Storage.getString,
    Storage.setInt, Storage.setUnsigned, Storage.setFloat, Storage.setString, hinvalid]

/-- C9, witness: an invalid store over the sample engine with "k" present
returns the default 7 and refuses the write. -/
theorem storage_invalid_no_engine_witness :
    Storage.getInt sampleEngine [("k", SampleEntry.i32 5)] ⟨false, 0⟩ "k" 7 = (7, []) ∧
      Storage.setInt sampleEngine [("k", SampleEntry.i32 5)] ⟨false, 0⟩ "k" 9
        = (false, [("k", SampleEntry.i32 5)], []) :=
  ⟨(storage_invalid_no_engine sampleEngine [("k", SampleEntry.i32 5)] ⟨false, 0⟩ rfl "k" 0).1 7,
    (storage_invalid_no_engine sampleEngine [("k", SampleEntry.i32 5)] ⟨false, 0⟩ rfl "k"
      0).2.2.2.2.1 9⟩

/-! ## C11: the one-time initialisation of the subsystem -/

/-- C11 (the code at the failing input).  When `nvs_flash_init()` answers
`ESP_ERR_NVS_NO_FREE_PAGES` and `nvs_flash_erase()` answers `ESP_OK`, the
constructor stores 1 in the counter although the one call of `nvs_flash_init`
has failed and no second call is made.  The rest of the claim holds: the
counter is 1 after `nvs_flash_init()` answers `ESP_OK`, it is 0 or 1 in every
case, and with the counter at 0 `inc` returns `false` and leaves it at 0. -/
theorem subsystem_construct_after_erase :
    Subsystem.construct ESP_ERR_NVS_NO_FREE_PAGES ESP_OK
        = (⟨1⟩, [FlashCall.nvs_flash_init, FlashCall.nvs_flash_erase]) ∧
      (∀ erase, Subsystem.construct ESP_OK erase = (⟨1⟩, [FlashCall.nvs_flash_init])) ∧
      (∀ init erase, (Subsystem.construct init erase).1.count_ = 0 ∨
        (Subsystem.construct init erase).1.count_ = 1) ∧
      Subsystem.inc ⟨0⟩ = (false, ⟨0⟩) := by
  refine ⟨by decide, fun _ => rfl, ?_, by decide⟩
  intro init erase
  simp only [Subsystem.construct]
  split_ifs <;> simp

/-! ## C12: the text of the AT command -/

theorem sendCommandLoop_later : ∀ (args : List String) (i : Nat) (command : List Char),
    2 ≤ i → sendCommandLoop args i command
      = command ++ (args.map (fun a => ',' :: cstrOf a)).flatten := by
  intro args
  induction args with
  | nil => intro i command _; simp [sendCommandLoop]
  | cons a rest ih =>
    intro i command hi
    have h1 : i ≠ 1 := by omega
    simp [sendCommandLoop, h1, ih (i + 1) _ (by omega)]

theorem intercalate_comma (x : List Char) (xs : List (List Char)) :
    List.intercalate [','] (x :: xs) = x ++ (xs.map (fun a => ',' :: a)).flatten := by
  induction xs generalizing x with
  | nil => simp [List.intercalate]
  | cons y ys ih =>
    have := ih y
    simp only [List.intercalate] at this ⊢
    simp only [List.intersperse, List.flatten_cons, List.map_cons, this]
    simp

theorem sendCommandLoop_first (args : List String) (command : List Char) :
    sendCommandLoop args 1 command
      = command ++ List.intercalate [','] (args.map cstrOf) := by
  cases args with
  | nil => simp [sendCommandLoop, List.intercalate]
  | cons a rest =>
    rw [List.map_cons, intercalate_comma]
    simp [sendCommandLoop, sendCommandLoop_later rest 2 _ (by decide), List.map_map,
      Function.comp_def]

/-- C12.  For every argument vector and every answer of the driver, the one
serial write of `sendCommand` has as its text "AT", then the arguments after
`argv[0]` joined with single commas, then CR LF, and as its size the length of
that text; the handler returns the status of `simSend` for that write: `ESP_OK`
when the driver reports that many bytes written, `ESP_FAIL` otherwise. -/
theorem sendCommand_text (uart_write_bytes : List Char → Nat → Int)
    (uart_wait_tx_done : Nat → Int) (argv : List String) :
    sendCommand uart_write_bytes uart_wait_tx_done argv
      = (if Int.toNat (uart_write_bytes
              (['A', 'T'] ++ List.intercalate [','] ((argv.drop 1).map cstrOf) ++ ['\r', '\n'])
              (['A', 'T'] ++ List.intercalate [','] ((argv.drop 1).map cstrOf)
                ++ ['\r', '\n']).length % (SIZE_MOD : Int))
            = (['A', 'T'] ++ List.intercalate [','] ((argv.drop 1).map cstrOf)
                ++ ['\r', '\n']).length
          then ESP_OK else ESP_FAIL,
         [UartCall.uart_write_bytes
            (['A', 'T'] ++ List.intercalate [','] ((argv.drop 1).map cstrOf) ++ ['\r', '\n'])
            (['A', 'T'] ++ List.intercalate [','] ((argv.drop 1).map cstrOf)
              ++ ['\r', '\n']).length]) := by
  simp only [sendCommand, simSend, sendCommandLoop_first]
  split_ifs <;> simp_all

/-! ## C14: the start-up sequence of the modem -/

/-- C14.  When the pin configuration succeeds, whatever the later driver calls
answer, the level writes and delays that `simInit` makes before it installs the
serial driver are, in order: power 1, reset 0, power-key 1, wait 500 ms,
reset 1, power-key 0, wait 1250 ms, power-key 1, wait 2000 ms; the serial
driver installation follows; the power-key wait exceeds 1000 ms and the three
waits together exceed 2900 ms. -/
theorem simInit_chip_sequence (env : InitAnswers) (hconf : env.gpio_config = ESP_OK) :
    (beforeUart (simInit env).2).filter isWriteOrWait
        = [InitStep.gpio_set_level ControlLine.power 1,
           InitStep.gpio_set_level ControlLine.reset 0,
           InitStep.gpio_set_level ControlLine.powerKey 1,
           InitStep.vTaskDelay 500,
           InitStep.gpio_set_level ControlLine.reset 1,
           InitStep.gpio_set_level ControlLine.powerKey 0,
           InitStep.vTaskDelay 1250,
           InitStep.gpio_set_level ControlLine.powerKey 1,
           InitStep.vTaskDelay 2000] ∧
      InitStep.uart_driver_install ∈ (simInit env).2 ∧
      1000 < powerKeyDelayEnableMs ∧
      2900 < resetDelayEnableMs + powerKeyDelayEnableMs + powerKeyDelayDisableMs := by
  refine ⟨?_, ?_, by decide, by decide⟩
  · simp only [simInit, hconf, ne_eq, not_true_eq_false, if_false]
    split_ifs <;> rfl
  · simp only [simInit, hconf, ne_eq, not_true_eq_false, if_false]
    split_ifs <;> simp

/-- C14, witness: with every driver call answering success the sequence is made
and `simInit` goes on to install the serial driver. -/
theorem simInit_chip_sequence_witness :
    (beforeUart (simInit ⟨ESP_OK, ESP_OK, ESP_OK, ESP_OK, true, ESP_OK⟩).2).filter isWriteOrWait
        = [InitStep.gpio_set_level ControlLine.power 1,
           InitStep.gpio_set_level ControlLine.reset 0,
           InitStep.gpio_set_level ControlLine.powerKey 1,
           InitStep.vTaskDelay 500,
           InitStep.gpio_set_level ControlLine.reset 1,
           InitStep.gpio_set_level ControlLine.powerKey 0,
           InitStep.vTaskDelay 1250,
           InitStep.gpio_set_level ControlLine.powerKey 1,
           InitStep.vTaskDelay 2000] :=
  (simInit_chip_sequence ⟨ESP_OK, ESP_OK, ESP_OK, ESP_OK, true, ESP_OK⟩ rfl).1

/-! ## C17: the reference a store holds -/

/-- C17 (as amended).  For every counter value `b` below 4294967295 before the
construction and every answer of `nvs_open`: the store is valid exactly when
`b` is not 0 and the namespace opens; after the constructor the counter is
`b + 1` when the store is valid and `b` when it is not; after the destructor
the counter is `b` again in both cases; and no `assert` fails on the way. -/
theorem storage_holds_one_reference (asserts : Bool) (b : Nat) (hb : b < 4294967295)
    (nvs_open : Int × Nat) :
    ((Storage.construct asserts ⟨b⟩ nvs_open).storage.isValid_ = true ↔
        (b ≠ 0 ∧ nvs_open.1 = ESP_OK)) ∧
      ((Storage.construct asserts ⟨b⟩ nvs_open).storage.isValid_ = true →
        (Storage.construct asserts ⟨b⟩ nvs_open).subsystem.count_ = b + 1) ∧
      ((Storage.construct asserts ⟨b⟩ nvs_open).storage.isValid_ = false →
        (Storage.construct asserts ⟨b⟩ nvs_open).subsystem.count_ = b) ∧
      (Storage.construct asserts ⟨b⟩ nvs_open).aborted = false ∧
      (Storage.destruct asserts (Storage.construct asserts ⟨b⟩ nvs_open).storage
        (Storage.construct asserts ⟨b⟩ nvs_open).subsystem).subsystem.count_ = b ∧
      (Storage.destruct asserts (Storage.construct asserts ⟨b⟩ nvs_open).storage
        (Storage.construct asserts ⟨b⟩ nvs_open).subsystem).aborted = false := by
  have hm : (b + 1) % SIZE_MOD = b + 1 := by simp only [SIZE_MOD]; omega
  by_cases h0 : b = 0
  · subst h0
    simp [Storage.construct, Storage.destruct, Subsystem.inc]
  · by_cases ho : nvs_open.1 = ESP_OK
    · simp [Storage.construct, Storage.destruct, Subsystem.inc, Subsystem.dec, h0, ho, hm]
    · simp [Storage.construct, Storage.destruct, Subsystem.inc, Subsystem.dec, h0, ho, hm]

/-- C17, witness: from the idle counter 1, a store whose namespace opens is
valid with the counter at 2, and its destructor brings the counter back to 1. -/
theorem storage_holds_one_reference_witness :
    (Storage.construct true ⟨1⟩ (ESP_OK, 7)).subsystem.count_ = 1 + 1 ∧
      (Storage.destruct true (Storage.construct true ⟨1⟩ (ESP_OK, 7)).storage
        (Storage.construct true ⟨1⟩ (ESP_OK, 7)).subsystem).subsystem.count_ = 1 :=
  ⟨(storage_holds_one_reference true 1 (by decide) (ESP_OK, 7)).2.1 (by decide),
    (storage_holds_one_reference true 1 (by decide) (ESP_OK, 7)).2.2.2.2.1⟩

/-- C17, counterexample to the claim as stated: with the counter at 4294967295
before the construction and a namespace that opens, the store is valid and the
counter is 0 after the constructor (the `size_t` sum wraps), and still 0 after
the destructor, whose `dec` reads 0 and gives up. -/
theorem storage_reference_wraps_counterexample :
    Storage.construct true ⟨4294967295⟩ (ESP_OK, 7) = ⟨⟨true, 7⟩, ⟨0⟩, false⟩ ∧
      Storage.destruct true ⟨true, 7⟩ ⟨0⟩ = ⟨⟨false, 7⟩, ⟨0⟩, false⟩ := by
  decide

/-! ## C13, C15, C16: the receiver for arbitrary read results -/

theorem nul_cut (d tail : List Nat) :
    ∃ rest, d ++ 0 :: tail = d.takeWhile (fun c => decide (c ≠ 0)) ++ 0 :: rest := by
  induction d with
  | nil => exact ⟨tail, rfl⟩
  | cons x xs ih =>
    by_cases hx : x = 0
    · subst hx
      exact ⟨xs ++ 0 :: tail, by simp⟩
    · obtain ⟨rest, hr⟩ := ih
      exact ⟨rest, by simp [List.takeWhile_cons, hx, hr]⟩

theorem carries_readPtr (st : RecvState) (carry : List Nat) (h : Carries st carry) :
    st.bufPtr.getD 0 = carry.length := by
  rcases h.2.2 with h | h
  · simp [h.1, h.2]
  · simp [h.1]

theorem carries_readLength (st : RecvState) (carry : List Nat) (h : Carries st carry) :
    (if st.bufPtr.isNone then BUFFER_SIZE else st.bufLength) = BUFFER_SIZE - carry.length := by
  rcases h.2.2 with h | h
  · simp [h.1, h.2]
  · simp [h.1, h.2.1]

theorem carries_take (st : RecvState) (carry : List Nat) (h : Carries st carry) :
    st.buffer.take carry.length = carry := by
  rcases h.2.2 with h | h
  · simp [h.2]
  · exact h.2.2

/-- One iteration with a successful read of any bytes that fit the request: it
returns, and afterwards holds the unterminated tail of the held data followed
by the new bytes up to their first NUL. -/
theorem recvCycle_data_any (parse : LineHandler) (st : RecvState) (carry d : List Nat)
    (hinv : Carries st carry) (h0c : ∀ c ∈ carry, c ≠ 0)
    (hpos : 0 < d.length) (hfit : d.length ≤ nextRequest st) :
    ∃ out, recvCycle parse st (.data d) = some out ∧
      out.lines = specLines (carry ++ d.takeWhile (fun c => decide (c ≠ 0))) ∧
      Carries out.state (specCarry (carry ++ d.takeWhile (fun c => decide (c ≠ 0)))) := by
  rw [nextRequest_of_carries st carry hinv] at hfit
  have hptr := carries_readPtr st carry hinv
  have hL := carries_readLength st carry hinv
  have htake := carries_take st carry hinv
  obtain ⟨hlen, hc, _⟩ := hinv
  simp only [BUFFER_SIZE] at hlen hc hfit
  have hne : st.buffer.drop (carry.length + d.length) ≠ [] := by
    intro hnil
    have := congrArg List.length hnil
    simp at this
    omega
  obtain ⟨x, xb, hx⟩ := List.exists_cons_of_ne_nil hne
  have hxb : xb.length + 1 = 128 - (carry.length + d.length) := by
    have := congrArg List.length hx
    simp at this
    omega
  obtain ⟨rest, hrest⟩ := nul_cut d xb
  have hcutlen : (d.takeWhile (fun c => decide (c ≠ 0))).length ≤ d.length :=
    (List.takeWhile_sublist _).length_le
  have e1 : writeBytes st.buffer carry.length d = some ((carry ++ d) ++ x :: xb) := by
    unfold writeBytes
    rw [if_pos (by omega), htake, hx]
  have e2 : writeAt ((carry ++ d) ++ x :: xb) (carry.length + d.length) 0
      = some ([] ++ (carry ++ d.takeWhile (fun c => decide (c ≠ 0))) ++ 0 :: rest) := by
    unfold writeAt
    rw [if_pos (by simp only [List.length_append, List.length_cons]; omega)]
    have := set_at_length_append (carry ++ d) x 0 xb
    rw [List.length_append] at this
    rw [this, List.append_assoc, hrest]
    simp
  have hlenbuf : ([] ++ (carry ++ d.takeWhile (fun c => decide (c ≠ 0))) ++ 0 :: rest).length
      = 128 := by
    have := congrArg List.length hrest
    simp only [List.length_append, List.length_cons, List.nil_append] at this ⊢
    omega
  have h0cd : ∀ c ∈ carry ++ d.takeWhile (fun c => decide (c ≠ 0)), c ≠ 0 := by
    intro c hcm
    rcases List.mem_append.mp hcm with h | h
    · exact h0c c h
    · simpa using (List.mem_takeWhile_imp h)
  obtain ⟨buf1, hrun, hlen1, htk⟩ :=
    operateLines_spec parse (BUFFER_SIZE + 1) (carry ++ d.takeWhile (fun c => decide (c ≠ 0)))
      [] rest (some carry.length) (BUFFER_SIZE - carry.length)
      (by simp only [BUFFER_SIZE, List.length_append]; omega) h0cd
  have hcl := specCarry_length_le _ (carry ++ d.takeWhile (fun c => decide (c ≠ 0))) (le_refl _)
  simp only [List.length_append] at hcl
  refine ⟨⟨⟨buf1, some (specCarry (carry ++ d.takeWhile (fun c => decide (c ≠ 0)))).length,
      BUFFER_SIZE - (specCarry (carry ++ d.takeWhile (fun c => decide (c ≠ 0)))).length⟩,
      st.bufPtr.isNone, (BUFFER_SIZE - carry.length + (SIZE_MOD - 1)) % SIZE_MOD,
      specLines (carry ++ d.takeWhile (fun c => decide (c ≠ 0)))⟩, ?_, rfl, ?_⟩
  · have hd : d.length ≠ 0 := by omega
    simp only [recvCycle, hptr, hL, e1, e2, hd, if_false]
    simp only [List.length_nil] at hrun
    rw [hrun]
  · refine ⟨?_, ?_, Or.inr ⟨rfl, rfl, htk⟩⟩
    · show buf1.length = BUFFER_SIZE
      rw [hlen1, hlenbuf]
      rfl
    · simp only [BUFFER_SIZE]
      omega

/-- What the receiver holds between iterations: some data free of NUL, CR and
LF.  Any iteration whose read fits the request returns and keeps this. -/
theorem recvCycle_keeps (parse : LineHandler) (st : RecvState) (r : ReadResult)
    (hinv : ∃ carry, Carries st carry ∧ (∀ c ∈ carry, c ≠ 0) ∧
      (∀ c ∈ carry, isTerminator c = false))
    (hfit : ∀ d, r = ReadResult.data d → d.length ≤ nextRequest st) :
    ∃ out, recvCycle parse st r = some out ∧
      ∃ carry, Carries out.state carry ∧ (∀ c ∈ carry, c ≠ 0) ∧
        (∀ c ∈ carry, isTerminator c = false) := by
  obtain ⟨carry, hcar, h0c, hcl⟩ := hinv
  have hptr := carries_readPtr st carry hcar
  have hL := carries_readLength st carry hcar
  have htake := carries_take st carry hcar
  cases r with
  | error =>
    refine ⟨_, rfl, [], ⟨hcar.1, by simp [BUFFER_SIZE], Or.inl ⟨rfl, rfl⟩⟩, by simp, by simp⟩
  | timeout =>
    refine ⟨_, rfl, carry, ⟨hcar.1, hcar.2.1, Or.inr ⟨?_, ?_, htake⟩⟩, h0c, hcl⟩
    · show some (st.bufPtr.getD 0) = some carry.length
      rw [hptr]
    · exact hL
  | data d =>
    by_cases hd : d.length = 0
    · have hdn : d = [] := List.length_eq_zero.mp hd
      subst hdn
      have hle : carry.length ≤ st.buffer.length := by
        have := hcar.1
        have := hcar.2.1
        omega
      have e1 : writeBytes st.buffer carry.length [] = some st.buffer := by
        simp [writeBytes, hle]
      refine ⟨⟨⟨st.buffer, some carry.length, BUFFER_SIZE - carry.length⟩, st.bufPtr.isNone,
        (BUFFER_SIZE - carry.length + (SIZE_MOD - 1)) % SIZE_MOD, []⟩, ?_, carry,
        ⟨hcar.1, hcar.2.1, Or.inr ⟨rfl, rfl, htake⟩⟩, h0c, hcl⟩
      simp only [recvCycle, hptr, hL, e1, List.length_nil, if_true]
    · have hfit1 := hfit d rfl
      obtain ⟨out, hout, _, hcar1⟩ :=
        recvCycle_data_any parse st carry d hcar h0c (by omega) hfit1
      refine ⟨out, hout, _, hcar1, ?_, specCarry_clean _ _ (le_refl _)⟩
      intro c hc
      have hmem := specCarry_mem _ _ (le_refl _) c hc
      rcases List.mem_append.mp hmem with h | h
      · exact h0c c h
      · simpa using (List.mem_takeWhile_imp h)

theorem recvRun_keeps (parse : LineHandler) : ∀ (rs : List ReadResult) (st : RecvState),
    (∃ carry, Carries st carry ∧ (∀ c ∈ carry, c ≠ 0) ∧
      (∀ c ∈ carry, isTerminator c = false)) →
    resultsFit parse st rs = true →
    ∃ st1 ls, recvRun parse st rs = some (st1, ls) ∧
      ∃ carry, Carries st1 carry ∧ (∀ c ∈ carry, c ≠ 0) ∧
        (∀ c ∈ carry, isTerminator c = false) := by
  intro rs
  induction rs with
  | nil => intro st hinv _; exact ⟨st, [], rfl, hinv⟩
  | cons r rs ih =>
    intro st hinv hfit
    simp only [resultsFit, Bool.and_eq_true] at hfit
    obtain ⟨hfitr, hrest⟩ := hfit
    have hfit1 : ∀ d, r = ReadResult.data d → d.length ≤ nextRequest st := by
      intro d hd
      subst hd
      simpa using hfitr
    obtain ⟨out, hout, hinv1⟩ := recvCycle_keeps parse st r hinv hfit1
    rw [hout] at hrest
    obtain ⟨st1, ls, hrun, hinv2⟩ := ih out.state hinv1 hrest
    exact ⟨st1, out.lines ++ ls, by simp [recvRun, hout, hrun], hinv2⟩

theorem reachable_carries (parse : LineHandler) (junk : List Nat)
    (hjunk : junk.length = BUFFER_SIZE) (st : RecvState) (hreach : Reachable parse junk st) :
    ∃ carry, Carries st carry ∧ (∀ c ∈ carry, c ≠ 0) ∧
      (∀ c ∈ carry, isTerminator c = false) := by
  obtain ⟨rs, ls, hfit, hrun⟩ := hreach
  have hstart : ∃ carry, Carries (recvStart junk) carry ∧ (∀ c ∈ carry, c ≠ 0) ∧
      (∀ c ∈ carry, isTerminator c = false) :=
    ⟨[], ⟨hjunk, by simp [BUFFER_SIZE], Or.inl ⟨rfl, rfl⟩⟩, by simp, by simp⟩
  obtain ⟨st1, ls1, hrun1, hinv⟩ := recvRun_keeps parse rs (recvStart junk) hstart hfit
  rw [hrun] at hrun1
  simp only [Option.some.injEq, Prod.mk.injEq] at hrun1
  rw [hrun1.1]
  exact hinv

/-- C13 (as amended).  In every state the receiver loop reaches at the start
of an iteration, whatever the reads before returned (timeout, error, data with
or without terminators or NUL bytes, each read within its request): at the read
call the cursor offset plus the remaining capacity is 128 and the bytes before
the cursor hold no CR or LF; the same holds for the stored `bufPtr` and
`bufLength` whenever `bufPtr` is not `nullptr`; an iteration whose read is
not an error never ends with `bufPtr` at `nullptr`; and an iteration whose read
is an error ends with `bufPtr` at `nullptr`, `bufLength` at its value of the
read call and the buffer as it was, forwarding no line. -/
theorem receiver_cursor_invariant (parse : LineHandler) (junk : List Nat)
    (hjunk : junk.length = BUFFER_SIZE) (st : RecvState) (hreach : Reachable parse junk st) :
    readPtr st + readLength st = BUFFER_SIZE ∧
      (∀ c ∈ st.buffer.take (readPtr st), isTerminator c = false) ∧
      (∀ p, st.bufPtr = some p → p + st.bufLength = BUFFER_SIZE ∧
        ∀ c ∈ st.buffer.take p, isTerminator c = false) ∧
      (∀ r out, r ≠ ReadResult.error → recvCycle parse st r = some out →
        ∃ p, out.state.bufPtr = some p) ∧
      recvCycle parse st ReadResult.error
        = some ⟨⟨st.buffer, none, readLength st⟩, st.bufPtr.isNone, nextRequest st, []⟩ := by
  obtain ⟨carry, hcar, _, hcl⟩ := reachable_carries parse junk hjunk st hreach
  have hptr : readPtr st = carry.length := carries_readPtr st carry hcar
  have hL : readLength st = BUFFER_SIZE - carry.length := carries_readLength st carry hcar
  have htake := carries_take st carry hcar
  have hc := hcar.2.1
  refine ⟨?_, ?_, ?_, ?_, rfl⟩
  · rw [hptr, hL]
    omega
  · rw [hptr, htake]
    exact hcl
  · intro p hp
    rcases hcar.2.2 with h | h
    · rw [h.1] at hp
      simp at hp
    · rw [h.1] at hp
      simp only [Option.some.injEq] at hp
      subst hp
      refine ⟨?_, ?_⟩
      · rw [h.2.1]
        omega
      · rw [htake]
        exact hcl
  · intro r out hr hout
    cases r with
    | error => exact absurd rfl hr
    | timeout =>
      simp only [recvCycle, Option.some.injEq] at hout
      subst hout
      exact ⟨_, rfl⟩
    | data d => exact recvCycle_data_bufPtr parse st d out hout

/-- C13, witness: after the read "AB" the loop is in a reachable state with the
cursor 2 bytes into the buffer and remaining capacity 126. -/
theorem receiver_cursor_invariant_witness :
    readPtr ⟨65 :: 66 :: List.replicate 126 0, some 2, 126⟩
        + readLength ⟨65 :: 66 :: List.replicate 126 0, some 2, 126⟩ = BUFFER_SIZE :=
  (receiver_cursor_invariant recvParseLine (List.replicate 128 0) (by decide)
    ⟨65 :: 66 :: List.replicate 126 0, some 2, 126⟩
    ⟨[ReadResult.data [65, 66]], [], by decide, by decide⟩).1

/-- C13, counterexample to the claim as stated: after the read "A" and then a
read error (both within the request) the iteration ends with `bufPtr` at
`nullptr`, so with no cursor offset, and with `bufLength` still 127. -/
theorem receiver_cursor_after_error_counterexample :
    resultsFit recvParseLine (recvStart (List.replicate 128 0))
        [ReadResult.data [65], ReadResult.error] = true ∧
      (recvRun recvParseLine (recvStart (List.replicate 128 0))
        [ReadResult.data [65], ReadResult.error]).map (fun r => (r.1.bufPtr, r.1.bufLength))
        = some (none, 127) := by
  decide

/-- C16.  In every state the receiver loop reaches at the start of an
iteration (reads within their requests): at the read call `bufLength` is
between 1 and 128, so the size asked, `bufLength - 1`, does not wrap; and for
every read result with `0 < recvLen` and `recvLen` at most `bufLength - 1`, the
terminator is written at an index of at most 127 and the iteration makes no
access outside the buffer and ends. -/
theorem receiver_buffer_bounds (parse : LineHandler) (junk : List Nat)
    (hjunk : junk.length = BUFFER_SIZE) (st : RecvState) (hreach : Reachable parse junk st) :
    1 ≤ readLength st ∧ readLength st ≤ BUFFER_SIZE ∧
      nextRequest st = readLength st - 1 ∧
      (∀ d : List Nat, 0 < d.length → d.length ≤ readLength st - 1 →
        readPtr st + d.length ≤ BUFFER_SIZE - 1 ∧
          ∃ out, recvCycle parse st (ReadResult.data d) = some out) := by
  obtain ⟨carry, hcar, h0c, _⟩ := reachable_carries parse junk hjunk st hreach
  have hptr : readPtr st = carry.length := carries_readPtr st carry hcar
  have hL : readLength st = BUFFER_SIZE - carry.length := carries_readLength st carry hcar
  have hreq := nextRequest_of_carries st carry hcar
  have hc := hcar.2.1
  simp only [BUFFER_SIZE] at hc hL hreq ⊢
  refine ⟨by omega, by omega, by omega, ?_⟩
  intro d hpos hle
  refine ⟨by omega, ?_⟩
  obtain ⟨out, hout, _⟩ := recvCycle_data_any parse st carry d hcar h0c hpos (by omega)
  exact ⟨out, hout⟩

/-- C16, witness: after the read "AB" the remaining capacity is 126 and the
size asked is 125. -/
theorem receiver_buffer_bounds_witness :
    nextRequest ⟨65 :: 66 :: List.replicate 126 0, some 2, 126⟩
      = readLength ⟨65 :: 66 :: List.replicate 126 0, some 2, 126⟩ - 1 :=
  (receiver_buffer_bounds recvParseLine (List.replicate 128 0) (by decide)
    ⟨65 :: 66 :: List.replicate 126 0, some 2, 126⟩
    ⟨[ReadResult.data [65, 66]], [], by decide, by decide⟩).2.2.1

theorem stall_cycle (parse : LineHandler) (st : RecvState)
    (hlen : st.buffer.length = BUFFER_SIZE) (hptr : st.bufPtr = some 127)
    (hcap : st.bufLength = 1) (r : ReadResult)
    (hr : r = ReadResult.timeout ∨ r = ReadResult.data []) :
    recvCycle parse st r = some ⟨st, false, 0, []⟩ := by
  obtain ⟨buf, ptr, cap⟩ := st
  simp only at hlen hptr hcap
  subst hptr hcap
  simp only [BUFFER_SIZE] at hlen
  have hreq : (1 + (SIZE_MOD - 1)) % SIZE_MOD = 0 := by
    simp only [SIZE_MOD]
  have hw : writeBytes buf 127 [] = some buf := by
    unfold writeBytes
    rw [if_pos (by simp only [List.length_nil]; omega)]
    simp
  rcases hr with rfl | rfl
  · simp only [recvCycle, Option.isNone_some, Bool.false_eq_true, if_false, Option.getD_some,
      hreq]
  · simp only [recvCycle, Option.isNone_some, Bool.false_eq_true, if_false, Option.getD_some,
      hreq, hw, List.length_nil, if_true]

theorem stall_run (parse : LineHandler) (st : RecvState)
    (hlen : st.buffer.length = BUFFER_SIZE) (hptr : st.bufPtr = some 127)
    (hcap : st.bufLength = 1) : ∀ rs : List ReadResult,
    (∀ r ∈ rs, r = ReadResult.timeout ∨ r = ReadResult.data []) →
    recvRun parse st rs = some (st, []) := by
  intro rs
  induction rs with
  | nil => intro _; rfl
  | cons r rs ih =>
    intro h
    have h1 := stall_cycle parse st hlen hptr hcap r (h r (by simp))
    have h2 := ih (fun x hx => h x (by simp [hx]))
    simp [recvRun, h1, h2]

/-- C15 (as amended).  Once the buffer holds 127 unterminated bytes (cursor 127
bytes in, remaining capacity 1), every iteration whose read reports no error,
hence returns no byte, asks for zero bytes, forwards no line and leaves the
state as it was, for any number of iterations; and from the entry of the loop
this state is reached by any reads (each within its request) that deliver 127
bytes in all with no CR, LF or NUL among them, without forwarding a line. -/
theorem receiver_stalls_when_full (parse : LineHandler) :
    (∀ st : RecvState, st.buffer.length = BUFFER_SIZE → st.bufPtr = some 127 →
        st.bufLength = 1 →
        nextRequest st = 0 ∧
        (∀ r, r = ReadResult.timeout ∨ r = ReadResult.data [] →
          recvCycle parse st r = some ⟨st, false, 0, []⟩) ∧
        (∀ rs : List ReadResult, (∀ r ∈ rs, r = ReadResult.timeout ∨ r = ReadResult.data []) →
          recvRun parse st rs = some (st, []))) ∧
      (∀ (junk : List Nat) (chunks : List (List Nat)), junk.length = BUFFER_SIZE →
        (∀ d ∈ chunks, ∀ c ∈ d, c ≠ 0) → (∀ d ∈ chunks, ∀ c ∈ d, isTerminator c = false) →
        readsFit parse (recvStart junk) chunks = true → chunks.flatten.length = 127 →
        ∃ st, recvRun parse (recvStart junk) (chunks.map ReadResult.data) = some (st, []) ∧
          st.buffer.length = BUFFER_SIZE ∧ st.bufPtr = some 127 ∧ st.bufLength = 1) := by
  constructor
  · intro st hlen hptr hcap
    refine ⟨by simp [nextRequest, hptr, hcap, SIZE_MOD], ?_, stall_run parse st hlen hptr hcap⟩
    intro r hr
    exact stall_cycle parse st hlen hptr hcap r hr
  · intro junk chunks hjunk hnul hterm hfit hlen
    have hinv : Carries (recvStart junk) [] :=
      ⟨hjunk, by simp [BUFFER_SIZE], Or.inl ⟨rfl, rfl⟩⟩
    obtain ⟨st, hrun, hcar⟩ :=
      recvRun_data parse chunks (recvStart junk) [] hinv (by simp) (by simp) hnul hfit
    have hclean : ∀ c ∈ chunks.flatten, isTerminator c = false := by
      intro c hc
      obtain ⟨d, hd, hcd⟩ := List.mem_flatten.mp hc
      exact hterm d hd c hcd
    have hsp := specLines_of_clean chunks.flatten hclean
    simp only [List.nil_append, hsp.1, hsp.2] at hrun hcar
    refine ⟨st, hrun, hcar.1, ?_⟩
    rcases hcar.2.2 with h | h
    · rw [h.2] at hlen
      simp at hlen
    · rw [hlen] at h
      exact ⟨h.1, by rw [h.2.1]; rfl⟩

/-- C15, witness: one read of 127 bytes "A" from the entry of the loop fits the
request and leaves the cursor 127 bytes in with remaining capacity 1. -/
theorem receiver_stalls_when_full_witness :
    ∃ st, recvRun recvParseLine (recvStart (List.replicate 128 0))
        ([List.replicate 127 65].map ReadResult.data) = some (st, []) ∧
      st.buffer.length = BUFFER_SIZE ∧ st.bufPtr = some 127 ∧ st.bufLength = 1 :=
  (receiver_stalls_when_full recvParseLine).2 (List.replicate 128 0) [List.replicate 127 65]
    (by decide) (by decide) (by decide) (by decide) (by decide)

/-- C15, counterexample to the claim as stated: one read of 127 bytes with no
CR or LF, a NUL followed by 126 bytes "A", fits the request and leaves the
cursor at the buffer start with the full capacity 128; the next iteration asks
for 127 bytes. -/
theorem receiver_not_stalled_after_nul_counterexample :
    readsFit recvParseLine (recvStart (List.replicate 128 0))
        [0 :: List.replicate 126 65] = true ∧
      (0 :: List.replicate 126 65).length = 127 ∧
      (∀ c ∈ 0 :: List.replicate 126 65, isTerminator c = false) ∧
      (recvRun recvParseLine (recvStart (List.replicate 128 0))
        [ReadResult.data (0 :: List.replicate 126 65)]).map
          (fun r => (r.2, r.1.bufPtr, r.1.bufLength, nextRequest r.1))
        = some ([], some 0, 128, 127) := by
  decide

end Sim800
